import Mathlib

/-!
# Flutter service worker: cache reconciliation and request interception

A shallow embedding of `flutter_service_worker.js` (the generated asset-caching
worker under `hosting/`): its resource table, the `activate` handler, the `fetch`
handler with `onlineFirst`, the `message` handler and `downloadOffline`.

Conventions of the embedding.

* URLs and keys are `String`s; `request.url` is the serialised (ASCII) URL, so a
  UTF-16 index of the source is a character index here.
* A cache partition is a list of `(request URL, response)` pairs in insertion
  order. As in the host, a request matches an entry when their URLs are equal
  once the fragments are set aside, and `put` is refused for a response of
  status 206 or with the header `Vary: *`. Requests are GET requests for
  http(s) URLs, the only ones a cache stores, and a stored response names no
  request header in `Vary`, so that a match is decided by the URLs alone.
* Every call on the host may be rejected; the world of a handler says which.
* The worker script is served from the root of its origin, as it is in this
  hosting directory, so a relative request such as `'main.dart.js'` resolves to
  `origin + '/' + 'main.dart.js'`.
* `RESOURCES[key]` is a JavaScript property read: besides the table's own keys
  it sees the members every object literal inherits from `Object.prototype`.
-/

set_option autoImplicit false

namespace ServiceWorker

/-! ## Strings -/

/-- JavaScript `s.substring(n)`: the characters of `s` from index `n` on (empty when `n` is
past the end). -/
def substring (s : String) (n : Nat) : String :=
  ⟨s.data.drop n⟩

/-- JavaScript `s.startsWith(p)`. -/
def startsWith (s p : String) : Bool :=
  p.data.isPrefixOf s.data

/-- Index of the first occurrence of `sep` in `cs`, counted from `i`. -/
def indexOfFrom (sep : List Char) : List Char → Nat → Option Nat
  | [], i => if sep.isEmpty then some i else none
  | c :: cs, i => if sep.isPrefixOf (c :: cs) then some i else indexOfFrom sep cs (i + 1)

/-- JavaScript `s.indexOf(sep)`, with `none` for `-1`. -/
def indexOf (s sep : String) : Option Nat :=
  indexOfFrom sep.data s.data 0

/-- Characters of `cs` before the first occurrence of `sep` (all of `cs` when there is none). -/
def takeBefore (sep : List Char) : List Char → List Char
  | [] => []
  | c :: cs => if sep.isPrefixOf (c :: cs) then [] else c :: takeBefore sep cs

/-- JavaScript `s.split(sep)[0]` for a non-empty separator. -/
def splitHead (s sep : String) : String :=
  ⟨takeBefore sep.data s.data⟩

/-! ## The generated constants -/

/-- A resource table: URL path to content hash, in insertion order. -/
abbrev Table := List (String × String)

/-- The three cache partitions the worker uses, under the names of its constants. -/
inductive CacheName where
  | MANIFEST
  | TEMP
  | CACHE_NAME
  deriving DecidableEq, Repr

/-- The name each constant holds. -/
def CacheName.value : CacheName → String
  | .MANIFEST => "flutter-app-manifest"
  | .TEMP => "flutter-temp-cache"
  | .CACHE_NAME => "flutter-app-cache"

/-- The table `RESOURCES` of the worker, entry for entry. -/
def RESOURCES : Table :=
  [("assets/AssetManifest.bin", "711f68f157e5170f32f9229c5025bacf"),
   ("assets/AssetManifest.bin.json", "7987813ff4516f4d5643e9d4da1cd08d"),
   ("assets/AssetManifest.json", "0baf772a01ffb8c57c5c404c1046490d"),
   ("assets/assets/audio/music/bg_music_1.mp3", "7ae3bd29a5223d7abd77b3453d246964"),
   ("assets/assets/audio/music/bg_music_2.mp3", "de44b5ff8f272361d377cbbbb3ad956f"),
   ("assets/assets/audio/music/bg_music_game.mp3", "30549d04249aae2744d201868fcd6529"),
   ("assets/assets/audio/sounds/bonus_1.mp3", "8f5bc30d87693395393a8c5747a09ef8"),
   ("assets/assets/audio/sounds/bonus_2.mp3", "6e7f08f8b27e5e15131e75eaa224c425"),
   ("assets/assets/audio/sounds/button_press_1.mp3", "41e083b10dd5900d539207af7284a1a4"),
   ("assets/assets/audio/sounds/button_press_2.mp3", "ff129f39ddd6609d408a2df0c4688bab"),
   ("assets/assets/audio/sounds/button_press_3.mp3", "41e083b10dd5900d539207af7284a1a4"),
   ("assets/assets/audio/sounds/drowning.mp3", "c499ef89bcad95f14f13500959502e76"),
   ("assets/assets/audio/sounds/item_collect.mp3", "56e3e4d9d740c274bf8641849457d2d7"),
   ("assets/assets/audio/sounds/water_splash.mp3", "ba16db3e6b8b61051cebc64bd88f8dd0"),
   ("assets/assets/images/bg_marshes_extended.png", "286d354b8d243de7a3dd48fe204b052e"),
   ("assets/assets/images/boat_sprite.png", "a93e2fd83dfc1f44424d01948c520c5c"),
   ("assets/assets/images/boat_sprites/sprite_boat_1.png", "61e45ceac305791a8a53ac7e63e96c0d"),
   ("assets/assets/images/boat_sprites/sprite_boat_10.png", "4af411cd4b3f6c4407876b2be4de086d"),
   ("assets/assets/images/boat_sprites/sprite_boat_11.png", "18f3f6305d914324f2f0c22533bf308a"),
   ("assets/assets/images/boat_sprites/sprite_boat_12.png", "f168f78296e83bed3a5625dc3f40a8fe"),
   ("assets/assets/images/boat_sprites/sprite_boat_13.png", "8bfa2ff3db632c484c51b9f3ff1941f5"),
   ("assets/assets/images/boat_sprites/sprite_boat_2.png", "28e12d408f05940bc265c1d3d8026ea1"),
   ("assets/assets/images/boat_sprites/sprite_boat_3.png", "3b8dd35e94f63f18a85a93ec92ff703a"),
   ("assets/assets/images/boat_sprites/sprite_boat_4.png", "dcaa8d9c3d196cfd7064948a6d5edcff"),
   ("assets/assets/images/boat_sprites/sprite_boat_5.png", "829e6e8971290ced5e2fcafe13e4d07a"),
   ("assets/assets/images/boat_sprites/sprite_boat_6.png", "9bed0434313d4e9e6c9703d5d499ae47"),
   ("assets/assets/images/boat_sprites/sprite_boat_7.png", "9bed0434313d4e9e6c9703d5d499ae47"),
   ("assets/assets/images/boat_sprites/sprite_boat_8.png", "9bed0434313d4e9e6c9703d5d499ae47"),
   ("assets/assets/images/boat_sprites/sprite_boat_9.png", "9bed0434313d4e9e6c9703d5d499ae47"),
   ("assets/assets/images/box_open.png", "49065a959d79695b6b4446ea0805c224"),
   ("assets/assets/images/chest.png", "3c708a037dc51d8ff294f9d8ee11dc1a"),
   ("assets/assets/images/fish_salt.png", "64a3343406b6fe39c27b7f33529935c0"),
   ("assets/assets/images/fish_sprite.png", "64a3343406b6fe39c27b7f33529935c0"),
   ("assets/assets/images/Group%252053.png", "c0f62b5d5838919c77f2eeeddcb49208"),
   ("assets/assets/images/idle_box.png", "f3337ea1dd174f58d7fc97b96c6a77c1"),
   ("assets/assets/images/looped_extended.png", "ad26413a7fa7f332ac862f5e33aed666"),
   ("assets/assets/images/mute_button.png", "e77e85431921c18b5969e237369dbda3"),
   ("assets/assets/images/pause_button.png", "ba54286406c6d1b8938360b551c576f9"),
   ("assets/assets/images/river_marshes_bg.png", "fb89771449551ca2c865bd46cc99d1fc"),
   ("assets/assets/images/sprite%25201.png", "e3c1f818f1578fc2d9bed4c174eec7ef"),
   ("assets/assets/images/sprite-2%25201.png", "b96661653e9be932999a4b4decd94d89"),
   ("assets/assets/images/sprite-3%25201.png", "ddcccc6bb35ffdc3f38edf2aaeb173c0"),
   ("assets/assets/images/sprite-4%25201.png", "61f8a6fbea206d1775c66cb930fc2a81"),
   ("assets/assets/images/sprite-5%25201.png", "25f575fffff15bcde707d21814d63a1b"),
   ("assets/assets/images/sprite-6%25201.png", "edf82150bbb3a264efa6231a48f069c8"),
   ("assets/assets/images/sprite-7%25201.png", "a948ebbb95c434998301146bcff297be"),
   ("assets/assets/images/sugar_cane.png", "e3cc9057b79733a70bba57540cae568d"),
   ("assets/assets/images/sugar_cane_high.png", "597081dbca92084dd3fbba5185e5f6a5"),
   ("assets/assets/images/unmute_button.png", "fc859f31a12a77193bb8eec0783d35ad"),
   ("assets/FontManifest.json", "dc3d03800ccca4601324923c0b1d6d57"),
   ("assets/fonts/MaterialIcons-Regular.otf", "75dc1160f5252a2efefab9018019b9f3"),
   ("assets/NOTICES", "5cfcb77a3cd50924519dbd7554d17334"),
   ("assets/packages/cupertino_icons/assets/CupertinoIcons.ttf", "e986ebe42ef785b27164c36a9abc7818"),
   ("assets/shaders/ink_sparkle.frag", "ecc85a2e95f5e9f53123dcaf8cb9b6ce"),
   ("canvaskit/canvaskit.js", "26eef3024dbc64886b7f48e1b6fb05cf"),
   ("canvaskit/canvaskit.js.symbols", "efc2cd87d1ff6c586b7d4c7083063a40"),
   ("canvaskit/canvaskit.wasm", "e7602c687313cfac5f495c5eac2fb324"),
   ("canvaskit/chromium/canvaskit.js", "b7ba6d908089f706772b2007c37e6da4"),
   ("canvaskit/chromium/canvaskit.js.symbols", "e115ddcfad5f5b98a90e389433606502"),
   ("canvaskit/chromium/canvaskit.wasm", "ea5ab288728f7200f398f60089048b48"),
   ("canvaskit/skwasm.js", "ac0f73826b925320a1e9b0d3fd7da61c"),
   ("canvaskit/skwasm.js.symbols", "96263e00e3c9bd9cd878ead867c04f3c"),
   ("canvaskit/skwasm.wasm", "828c26a0b1cc8eb1adacbdd0c5e8bcfa"),
   ("canvaskit/skwasm.worker.js", "89990e8c92bcb123999aa81f7e203b1c"),
   ("favicon.png", "5dcef449791fa27946b3d35ad8803796"),
   ("flutter.js", "4b2350e14c6650ba82871f60906437ea"),
   ("flutter_bootstrap.js", "44edbcad618403caf7ab16dcad302392"),
   ("icons/Icon-192.png", "ac9a721a12bbc803b44f645561ecb1e1"),
   ("icons/Icon-512.png", "96e752610906ba2a93c65f8abe1645f1"),
   ("icons/Icon-maskable-192.png", "c457ef57daa1d16f64b27b786ec2ea3c"),
   ("icons/Icon-maskable-512.png", "301a7604d45b3e739efc881eb04896ea"),
   ("index.html", "bfba371a75c7a83103db7ed13a7752eb"),
   ("/", "bfba371a75c7a83103db7ed13a7752eb"),
   ("main.dart.js", "1a619c9d88fb59f86e4198f87f9eb544"),
   ("manifest.json", "8ea2a017fd78b0b850ad356716b7d6c6"),
   ("version.json", "c29f1e3216d6f98c330758a87ce07a51")]

/-- The application shell files downloaded at install time. -/
def CORE : List String :=
  ["main.dart.js",
   "index.html",
   "flutter_bootstrap.js",
   "assets/AssetManifest.bin.json",
   "assets/FontManifest.json"]

/-! ## JavaScript objects -/

/-- Result of a property read `o[key]` on an ordinary object whose own values have type `α`. -/
inductive Property (α : Type) where
  /-- An own property of the object. -/
  | own (value : α)
  /-- A member inherited from `Object.prototype`, identified by its name. -/
  | inherited (name : String)
  /-- The value `undefined`: no such property. -/
  | undefined
  deriving DecidableEq, Repr

/-- Names of the members of `Object.prototype`, which every object literal and every object
built by `JSON.parse` inherits. -/
def objectPrototypeNames : List String :=
  ["constructor", "__defineGetter__", "__defineSetter__", "hasOwnProperty",
   "__lookupGetter__", "__lookupSetter__", "isPrototypeOf", "propertyIsEnumerable",
   "toString", "valueOf", "__proto__", "toLocaleString"]

/-- The property read `o[key]`: an own property first, then the prototype. -/
def getProperty {α : Type} (o : List (String × α)) (key : String) : Property α :=
  match o.lookup key with
  | some v => .own v
  | none => if key ∈ objectPrototypeNames then .inherited key else .undefined

/-- The assignment `o[key] = value` of a primitive `value`. Assigning a primitive to
`__proto__` runs the inherited setter, which ignores it. -/
def setProperty {α : Type} (o : List (String × α)) (key : String) (value : α) :
    List (String × α) :=
  if key = "__proto__" then o
  else if (o.lookup key).isSome then o.map (fun e => if e.1 = key then (key, value) else e)
  else o ++ [(key, value)]

/-- The keys listed by `Object.keys(o)`: own keys in insertion order (no key of the tables
here is an array index, which would be listed first). -/
def objectKeys {α : Type} (o : List (String × α)) : List String :=
  o.map (fun e => e.1)

/-- Truthiness of a value read from a table of hashes: a string is truthy unless empty,
an inherited member (a function or the prototype object) is truthy, `undefined` is not. -/
def truthy : Property String → Bool
  | .own v => v != ""
  | .inherited _ => true
  | .undefined => false

/-- Truthiness of a value read from an object whose own values are booleans. -/
def truthyFlag : Property Bool → Bool
  | .own b => b
  | .inherited _ => true
  | .undefined => false

/-- The string an inherited member converts to when compared with a string: the prototype
object itself for `__proto__`, and a native function's source text otherwise. -/
def inheritedText (name : String) : String :=
  if name = "__proto__" then "[object Object]"
  else if name = "constructor" then "function Object() \x7b [native code] \x7d"
  else "function " ++ name ++ "() \x7b [native code] \x7d"

/-- The loose inequality `a != b` of two values read from tables of hashes. Two strings
compare by content, two inherited members by identity, `undefined` equals only itself, and
an object meets a string through its primitive text. -/
def looseNe : Property String → Property String → Bool
  | .own a, .own b => a != b
  | .inherited m, .inherited n => m != n
  | .undefined, .undefined => false
  | .own a, .inherited n => a != inheritedText n
  | .inherited n, .own b => inheritedText n != b
  | _, _ => true

/-! ## The serialised resource table

`JSON.stringify` on a table of strings, and `JSON.parse` on the texts that denote such a
table: a JSON object whose members are all strings. This is the only shape the worker ever
stores under `'manifest'`. Any other text is rejected here, as `JSON.parse` rejects
malformed text; well-formed JSON of another shape (numbers, nested values) is outside the
embedding, and no statement below is about a manifest of that kind. -/

/-- The double quote. -/
def quoteMark : Char := Char.ofNat 34

/-- The reverse solidus that starts an escape. -/
def backslash : Char := Char.ofNat 92

/-- Lower-case hexadecimal digit of `n < 16`. -/
def hexDigit (n : Nat) : Char :=
  if n < 10 then Char.ofNat (48 + n) else Char.ofNat (87 + n)

/-- The characters `JSON.stringify` writes for one character of a string. -/
def quoteChar (c : Char) : List Char :=
  if c = quoteMark then [backslash, quoteMark]
  else if c = backslash then [backslash, backslash]
  else if c.toNat = 8 then [backslash, 'b']
  else if c.toNat = 9 then [backslash, 't']
  else if c.toNat = 10 then [backslash, 'n']
  else if c.toNat = 12 then [backslash, 'f']
  else if c.toNat = 13 then [backslash, 'r']
  else if c.toNat < 32 then
    [backslash, 'u', '0', '0', hexDigit (c.toNat / 16), hexDigit (c.toNat % 16)]
  else [c]

/-- A string as a JSON string literal. -/
def quoteString (s : String) : List Char :=
  quoteMark :: (s.data.flatMap quoteChar ++ [quoteMark])

/-- The members of a JSON object, comma separated. -/
def stringifyMembers : Table → List Char
  | [] => []
  | [(k, v)] => quoteString k ++ ':' :: quoteString v
  | (k, v) :: rest => quoteString k ++ ':' :: quoteString v ++ ',' :: stringifyMembers rest

/-- JavaScript `JSON.stringify(table)`. -/
def jsonStringify (t : Table) : String :=
  ⟨Char.ofNat 123 :: (stringifyMembers t ++ [Char.ofNat 125])⟩

/-- Position of the scanner inside a string literal. -/
inductive StringMode where
  | plain
  | escape
  | unicode (seen : Nat) (code : Nat)
  deriving DecidableEq, Repr

/-- Effect of one character on a string literal being read. -/
inductive StringStep where
  | more (acc : List Char) (mode : StringMode)
  | closed (acc : List Char)
  | bad
  deriving DecidableEq, Repr

/-- Value of a hexadecimal digit. -/
def hexValue (c : Char) : Option Nat :=
  let n := c.toNat
  if 48 ≤ n ∧ n ≤ 57 then some (n - 48)
  else if 97 ≤ n ∧ n ≤ 102 then some (n - 87)
  else if 65 ≤ n ∧ n ≤ 70 then some (n - 55)
  else none

/-- Reads one character of a string literal; `acc` holds the characters read so far, last
one first. Escapes of surrogate code units are outside the texts handled here. -/
def stringStep (acc : List Char) : StringMode → Char → StringStep
  | .plain, c =>
    if c = quoteMark then .closed acc
    else if c = backslash then .more acc .escape
    else if c.toNat < 32 then .bad
    else .more (c :: acc) .plain
  | .escape, c =>
    if c = quoteMark then .more (quoteMark :: acc) .plain
    else if c = backslash then .more (backslash :: acc) .plain
    else if c = '/' then .more ('/' :: acc) .plain
    else if c = 'b' then .more (Char.ofNat 8 :: acc) .plain
    else if c = 'f' then .more (Char.ofNat 12 :: acc) .plain
    else if c = 'n' then .more (Char.ofNat 10 :: acc) .plain
    else if c = 'r' then .more (Char.ofNat 13 :: acc) .plain
    else if c = 't' then .more (Char.ofNat 9 :: acc) .plain
    else if c = 'u' then .more acc (.unicode 0 0)
    else .bad
  | .unicode seen code, c =>
    match hexValue c with
    | none => .bad
    | some d =>
      let code := code * 16 + d
      if seen < 3 then .more acc (.unicode (seen + 1) code)
      else if 0xD800 ≤ code ∧ code ≤ 0xDFFF then .bad
      else .more (Char.ofNat code :: acc) .plain

/-- Position of the parser in the text of an object of strings. -/
inductive ParseState where
  | start
  | opened
  | key (acc : List Char) (mode : StringMode)
  | afterKey (k : String)
  | afterColon (k : String)
  | value (k : String) (acc : List Char) (mode : StringMode)
  | afterValue
  | afterComma
  | done
  | fail
  deriving DecidableEq, Repr

/-- JSON white space. -/
def isSpace (c : Char) : Bool :=
  c.toNat = 32 || c.toNat = 9 || c.toNat = 10 || c.toNat = 13

/-- Defines the member `k` of the object under construction: a repeated key keeps its
place and takes the later value. -/
def defineMember (t : Table) (k v : String) : Table :=
  if (t.lookup k).isSome then t.map (fun e => if e.1 = k then (k, v) else e)
  else t ++ [(k, v)]

/-- One character of the parse. -/
def parseStep (s : Table × ParseState) (c : Char) : Table × ParseState :=
  match s.2 with
  | .start =>
    if isSpace c then s else if c = Char.ofNat 123 then (s.1, .opened) else (s.1, .fail)
  | .opened =>
    if isSpace c then s
    else if c = quoteMark then (s.1, .key [] .plain)
    else if c = Char.ofNat 125 then (s.1, .done)
    else (s.1, .fail)
  | .key acc mode =>
    match stringStep acc mode c with
    | .more acc mode => (s.1, .key acc mode)
    | .closed acc => (s.1, .afterKey ⟨acc.reverse⟩)
    | .bad => (s.1, .fail)
  | .afterKey k =>
    if isSpace c then s else if c = ':' then (s.1, .afterColon k) else (s.1, .fail)
  | .afterColon k =>
    if isSpace c then s else if c = quoteMark then (s.1, .value k [] .plain) else (s.1, .fail)
  | .value k acc mode =>
    match stringStep acc mode c with
    | .more acc mode => (s.1, .value k acc mode)
    | .closed acc => (defineMember s.1 k ⟨acc.reverse⟩, .afterValue)
    | .bad => (s.1, .fail)
  | .afterValue =>
    if isSpace c then s
    else if c = ',' then (s.1, .afterComma)
    else if c = Char.ofNat 125 then (s.1, .done)
    else (s.1, .fail)
  | .afterComma =>
    if isSpace c then s else if c = quoteMark then (s.1, .key [] .plain) else (s.1, .fail)
  | .done => if isSpace c then s else (s.1, .fail)
  | .fail => s

/-- JavaScript `JSON.parse(text)` on the text of an object of strings; `none` stands for the
`SyntaxError` it throws. -/
def jsonParse (text : String) : Option Table :=
  match text.data.foldl parseStep ([], .start) with
  | (t, .done) => some t
  | _ => none

/-! ## Responses, requests and cache storage -/

/-- A response: its body text, its status, and whether its `Vary` header is `*`. -/
structure Response where
  body : String
  status : Nat
  varyAll : Bool
  deriving DecidableEq, Repr

/-- The flag `response.ok`: the status is in the range 200-299. -/
def Response.ok (r : Response) : Bool :=
  decide (200 ≤ r.status) && decide (r.status ≤ 299)

/-- Whether the host accepts the response in `cache.put`: it refuses a partial response
(status 206) and one whose `Vary` header is `*`. -/
def storable (r : Response) : Bool :=
  r.status != 206 && !r.varyAll

/-- A request: its method and its URL. -/
structure Request where
  method : String
  url : String
  deriving DecidableEq, Repr

/-- A cache partition: request URL to response, in insertion order. -/
abbrev Cache := List (String × Response)

/-- The URL without its fragment: what precedes the first `#`. -/
def withoutFragment (url : String) : String :=
  ⟨takeBefore ['#'] url.data⟩

/-- Whether the host takes two URLs for the same cached request: it compares them with the
fragments excluded. -/
def sameRequest (a b : String) : Bool :=
  withoutFragment a == withoutFragment b

/-- The requests of `cache.keys()`. -/
def cacheKeys (c : Cache) : List String :=
  c.map (fun e => e.1)

/-- The response of `cache.match(request)`, `none` for `undefined`: that of the first entry
the request matches. -/
def cacheMatch : Cache → String → Option Response
  | [], _ => none
  | e :: rest, url => if sameRequest e.1 url then some e.2 else cacheMatch rest url

/-- The cache after `cache.delete(request)`: every entry the request matches is gone. -/
def cacheDelete (c : Cache) (url : String) : Cache :=
  c.filter (fun e => !sameRequest e.1 url)

/-- The cache after an accepted `cache.put(request, response)`: the entries the request
matches are replaced by the new one, which comes last. -/
def cachePut (c : Cache) (url : String) (r : Response) : Cache :=
  cacheDelete c url ++ [(url, r)]

/-- The part of `caches` the worker touches: each partition is absent (`none`) or present. -/
structure CacheStorage where
  content : Option Cache
  temp : Option Cache
  manifest : Option Cache
  deriving DecidableEq, Repr

/-- The partition of a given name. -/
def CacheStorage.get (s : CacheStorage) : CacheName → Option Cache
  | .CACHE_NAME => s.content
  | .TEMP => s.temp
  | .MANIFEST => s.manifest

/-- Replaces the partition of a given name. -/
def CacheStorage.set (s : CacheStorage) (n : CacheName) (c : Option Cache) : CacheStorage :=
  match n with
  | .CACHE_NAME => { s with content := c }
  | .TEMP => { s with temp := c }
  | .MANIFEST => { s with manifest := c }

/-- Storage after `caches.open(name)`: an absent partition is created empty. -/
def CacheStorage.opened (s : CacheStorage) (n : CacheName) : CacheStorage :=
  match s.get n with
  | some _ => s
  | none => s.set n (some [])

/-- Storage after `caches.delete(name)`. -/
def CacheStorage.deleted (s : CacheStorage) (n : CacheName) : CacheStorage :=
  s.set n none

/-- The entries a handle on partition `n` sees. -/
def CacheStorage.entries (s : CacheStorage) (n : CacheName) : Cache :=
  (s.get n).getD []

/-- Storage after a handle on partition `n` rewrites its entries; a handle on a partition
that has been deleted no longer reaches the storage. -/
def CacheStorage.update (s : CacheStorage) (n : CacheName) (f : Cache → Cache) : CacheStorage :=
  match s.get n with
  | some c => s.set n (some (f c))
  | none => s

/-- URL of a request the worker builds from a relative path. -/
def resolveUrl (origin path : String) : String :=
  if path = "/" then origin ++ "/" else origin ++ "/" ++ path

/-- The key of a cached request: its URL after the origin and the following character, the
empty key read as the root. -/
def requestKey (origin url : String) : String :=
  let key := substring url (origin.length + 1)
  if key == "" then "/" else key

/-! ## Host calls that may raise -/

/-- The calls the handlers make on the host. -/
inductive HostCall where
  | cachesOpen (n : CacheName)
  | cachesDelete (n : CacheName)
  | cacheMatch (n : CacheName) (url : String)
  | cacheKeys (n : CacheName)
  | cachePut (n : CacheName) (url : String)
  | cacheDelete (n : CacheName) (url : String)
  | cacheAddAll (n : CacheName) (paths : List String)
  | responseJson
  | clientsClaim
  | skipWaiting
  | fetch (url : String)
  deriving DecidableEq, Repr

/-- What a handler can raise. -/
inductive Exception where
  /-- The host rejected a call. -/
  | rejected (c : HostCall)
  /-- The body of the stored manifest is not the text of a resource table. -/
  | syntaxError
  /-- A value the host does not accept was passed to it. -/
  | typeError
  /-- Two requests of one `addAll` are the same cached request. -/
  | invalidState
  /-- The network failed on a fetch, with this message. -/
  | networkError (message : String)
  deriving DecidableEq, Repr

/-- The world a handler runs in: the cache storage, the fate of the cache and manifest calls
to come (`true`: the call is rejected; past the end of the list every call succeeds), and the
calls made so far. -/
structure World where
  caches : CacheStorage
  faults : List Bool
  log : List HostCall
  deriving DecidableEq, Repr

/-- An asynchronous computation, run to completion: a result or an exception, and the world
it leaves. -/
def Async (α : Type) : Type :=
  World → Except Exception α × World

instance : Monad Async where
  pure a := fun w => (.ok a, w)
  bind m k := fun w =>
    match m w with
    | (.ok a, w1) => k a w1
    | (.error e, w1) => (.error e, w1)

/-- Raises `e`. -/
def raise {α : Type} (e : Exception) : Async α :=
  fun w => (.error e, w)

/-- The statement `try { body } catch (err) { handler }`, and likewise
`promise.catch(handler)`. -/
def tryCatch {α : Type} (body : Async α) (handler : Exception → Async α) : Async α :=
  fun w =>
    match body w with
    | (.ok a, w1) => (.ok a, w1)
    | (.error e, w1) => handler e w1

/-- A call whose promise nobody awaits: the caller goes on, and never sees it fail. -/
def detached {α : Type} (m : Async α) : Async Unit :=
  fun w => (.ok (), (m w).2)

/-- One awaited host call: it is logged, and it raises when the world says so. -/
def hostCall (c : HostCall) : Async Unit :=
  fun w =>
    match w.faults with
    | [] => (.ok (), { w with log := w.log ++ [c] })
    | false :: rest => (.ok (), { w with faults := rest, log := w.log ++ [c] })
    | true :: rest => (.error (.rejected c), { w with faults := rest, log := w.log ++ [c] })

/-- Reads the cache storage. -/
def getCaches : Async CacheStorage :=
  fun w => (.ok w.caches, w)

/-- Rewrites the cache storage. -/
def modifyCaches (f : CacheStorage → CacheStorage) : Async Unit :=
  fun w => (.ok (), { w with caches := f w.caches })

/-- The call `await caches.open(name)`; the handle it returns is the name. -/
def cachesOpen (n : CacheName) : Async Unit := do
  hostCall (.cachesOpen n)
  modifyCaches (fun s => s.opened n)

/-- The call `await caches.delete(name)`. -/
def cachesDelete (n : CacheName) : Async Unit := do
  hostCall (.cachesDelete n)
  modifyCaches (fun s => s.deleted n)

/-- The call `await cache.match(request)`. -/
def cacheMatchAsync (n : CacheName) (url : String) : Async (Option Response) := do
  hostCall (.cacheMatch n url)
  let s ← getCaches
  pure (cacheMatch (s.entries n) url)

/-- The call `await cache.keys()`. -/
def cacheKeysAsync (n : CacheName) : Async (List String) := do
  hostCall (.cacheKeys n)
  let s ← getCaches
  pure (cacheKeys (s.entries n))

/-- The call `await cache.put(request, response)`. A missing response is a `TypeError`, and
so is a response the host does not store. -/
def cachePutAsync (n : CacheName) (url : String) (response : Option Response) : Async Unit :=
  match response with
  | none => raise .typeError
  | some r => do
    hostCall (.cachePut n url)
    if storable r then modifyCaches (fun s => s.update n (fun c => cachePut c url r))
    else raise .typeError

/-- The call `await cache.delete(request)`. -/
def cacheDeleteAsync (n : CacheName) (url : String) : Async Unit := do
  hostCall (.cacheDelete n url)
  modifyCaches (fun s => s.update n (fun c => cacheDelete c url))

/-- The call `await response.json()`. -/
def responseJson (r : Response) : Async Table := do
  hostCall .responseJson
  match jsonParse r.body with
  | some t => pure t
  | none => raise .syntaxError

/-- The call `self.clients.claim()`: it is not awaited, so the handler never sees it fail. -/
def clientsClaim : Async Unit :=
  fun w => (.ok (), { w with log := w.log ++ [.clientsClaim] })

/-- The call `self.skipWaiting()`, not awaited either. -/
def skipWaiting : Async Unit :=
  fun w => (.ok (), { w with log := w.log ++ [.skipWaiting] })

/-- The loop `for (var x of xs) { body }`. -/
def forEach {α : Type} : List α → (α → Async Unit) → Async Unit
  | [], _ => pure ()
  | x :: xs, body => do
    body x
    forEach xs body

/-! ## The activate handler -/

/-- The response `new Response(JSON.stringify(RESOURCES))`, of status 200. -/
def manifestResponse : Response :=
  { body := jsonStringify RESOURCES, status := 200, varyAll := false }

/-- Body of the loop over the temporary cache: the staged response of `request` is put in
the content cache. -/
def populateStep (request : String) : Async Unit := do
  let response ← cacheMatchAsync .TEMP request
  cachePutAsync .CACHE_NAME request response

/-- The loop `for (var request of await tempCache.keys())`, the same in both branches. -/
def populate : Async Unit := do
  let requests ← cacheKeysAsync .TEMP
  forEach requests populateStep

/-- The test of the eviction loop: `!RESOURCES[key] || RESOURCES[key] != oldManifest[key]`. -/
def evicts (oldManifest : Table) (key : String) : Bool :=
  !truthy (getProperty RESOURCES key)
    || looseNe (getProperty RESOURCES key) (getProperty oldManifest key)

/-- Body of the loop over the content cache: a request whose resource is gone or has a new
hash is deleted. -/
def evictStep (origin : String) (oldManifest : Table) (request : String) : Async Unit :=
  if evicts oldManifest (requestKey origin request) then
    cacheDeleteAsync .CACHE_NAME request
  else pure ()

/-- The body of the `try` block of the activate handler. -/
def activateTry (origin : String) : Async Unit := do
  cachesOpen .CACHE_NAME
  cachesOpen .TEMP
  cachesOpen .MANIFEST
  let manifest ← cacheMatchAsync .MANIFEST (resolveUrl origin "manifest")
  match manifest with
  | none =>
    cachesDelete .CACHE_NAME
    cachesOpen .CACHE_NAME
    populate
    cachesDelete .TEMP
    cachePutAsync .MANIFEST (resolveUrl origin "manifest") (some manifestResponse)
    clientsClaim
  | some manifest =>
    let oldManifest ← responseJson manifest
    let requests ← cacheKeysAsync .CACHE_NAME
    forEach requests (evictStep origin oldManifest)
    populate
    cachesDelete .TEMP
    cachePutAsync .MANIFEST (resolveUrl origin "manifest") (some manifestResponse)
    clientsClaim

/-- The `catch` block of the activate handler: after logging the error it deletes the three
partitions. -/
def activateCatch : Async Unit := do
  cachesDelete .CACHE_NAME
  cachesDelete .TEMP
  cachesDelete .MANIFEST

/-- The activate handler. -/
def activate (origin : String) : Async Unit :=
  tryCatch (activateTry origin) (fun _ => activateCatch)

/-! ## The fetch handler -/

deriving instance DecidableEq for Except

/-- The network as the worker sees it: `fetch(request)` gives a response or fails with a
network error. -/
abbrev Network := Request → Except String Response

/-- The call `fetch(request)`: it is logged, and the network decides how it ends. -/
def fetch (network : Network) (request : Request) : Async Response :=
  fun w =>
    match network request with
    | .ok response => (.ok response, { w with log := w.log ++ [.fetch request.url] })
    | .error message =>
      (.error (.networkError message), { w with log := w.log ++ [.fetch request.url] })

/-- The function `onlineFirst`, as the promise it passes to `event.respondWith`: the network
first; the `catch` that turns to the content cache also receives what the `then` before it
raises. The `put` is not awaited. -/
def onlineFirst (network : Network) (request : Request) : Async Response :=
  tryCatch
    (do
      let response ← fetch network request
      cachesOpen .CACHE_NAME
      detached (cachePutAsync .CACHE_NAME request.url (some response))
      pure response)
    (fun error => do
      cachesOpen .CACHE_NAME
      let response ← cacheMatchAsync .CACHE_NAME request.url
      match response with
      | some response => pure response
      | none => raise error)

/-- The promise of lines 184-197: the content cache first, then the network, whose response
is put in the cache, without waiting, when it is ok. -/
def cacheFirst (network : Network) (request : Request) : Async Response := do
  cachesOpen .CACHE_NAME
  let response ← cacheMatchAsync .CACHE_NAME request.url
  match response with
  | some response => pure response
  | none =>
    let response ← fetch network request
    if response.ok then
      detached (cachePutAsync .CACHE_NAME request.url (some response))
    else pure ()
    pure response

/-- The URL after the origin and the following character, cut at the first `?v=`. -/
def versionlessKey (origin url : String) : String :=
  let key := substring url (origin.length + 1)
  if indexOf key "?v=" != none then splitHead key "?v=" else key

/-- The key the fetch handler derives from a request URL. -/
def fetchKey (origin url : String) : String :=
  let key := versionlessKey origin url
  if url == origin || startsWith url (origin ++ "/#") || key == "" then "/" else key

/-- The call `event.respondWith(promise)`: how the promise settles is the response to the
request. -/
def respondWith (promise : Async Response) (w : World) :
    Option (Except Exception Response) × World :=
  (some (promise w).1, (promise w).2)

/-- The fetch handler: the promise it responds with, run to completion, or `none` when it
returns without responding so that the browser takes over; and the world it leaves. -/
def fetchHandler (origin : String) (network : Network) (request : Request) (w : World) :
    Option (Except Exception Response) × World :=
  if request.method != "GET" then (none, w)
  else
    let key := fetchKey origin request.url
    if !truthy (getProperty RESOURCES key) then (none, w)
    else if key == "/" then respondWith (onlineFirst network request) w
    else respondWith (cacheFirst network request) w

/-! ## The message handler and `downloadOffline` -/

/-- The fetches of `cache.addAll(paths)`, which come before any write: `none` when a fetch
fails, or brings a response that is not ok or that the host does not store. -/
def fetchAll (origin : String) (network : Network) :
    List String → Option (List (String × Response))
  | [] => some []
  | path :: rest =>
    match network { method := "GET", url := resolveUrl origin path } with
    | .error _ => none
    | .ok response =>
      if response.ok && storable response then
        match fetchAll origin network rest with
        | some entries => some ((resolveUrl origin path, response) :: entries)
        | none => none
      else none

/-- Whether no two strings of the list are equal. -/
def allDistinct : List String → Bool
  | [] => true
  | x :: rest => !rest.contains x && allDistinct rest

/-- Stores fetched entries in order. -/
def putAll (c : Cache) (entries : List (String × Response)) : Cache :=
  entries.foldl (fun c e => cachePut c e.1 e.2) c

/-- The call `await cache.addAll(paths)`: everything is fetched first, a failed fetch or a
response the cache cannot take is a `TypeError`, two paths for the same request are an
`InvalidStateError`, and only then the responses are stored. -/
def cacheAddAllAsync (origin : String) (network : Network) (n : CacheName)
    (paths : List String) : Async Unit := do
  hostCall (.cacheAddAll n paths)
  match fetchAll origin network paths with
  | none => raise .typeError
  | some entries =>
    if allDistinct (entries.map (fun e => withoutFragment e.1)) then
      modifyCaches (fun s => s.update n (fun c => putAll c entries))
    else raise .invalidState

/-- The object `currentContent` after the first loop of `downloadOffline`. -/
def currentContent (origin : String) (requests : List String) : List (String × Bool) :=
  requests.foldl
    (fun current request => setProperty current (requestKey origin request) true) []

/-- The list `resources` after the second loop of `downloadOffline`. -/
def missingResources (current : List (String × Bool)) : List String :=
  (objectKeys RESOURCES).foldl
    (fun resources resourceKey =>
      if !truthyFlag (getProperty current resourceKey) then resources ++ [resourceKey]
      else resources) []

/-- The function `downloadOffline`; its free variable `origin` is the global of the worker
scope, the same origin the handlers read from `self.location`. -/
def downloadOffline (origin : String) (network : Network) : Async Unit := do
  cachesOpen .CACHE_NAME
  let requests ← cacheKeysAsync .CACHE_NAME
  cacheAddAllAsync origin network .CACHE_NAME (missingResources (currentContent origin requests))

/-- The message handler; it does not await `downloadOffline`. -/
def messageHandler (origin : String) (network : Network) (data : String) : Async Unit :=
  if data = "skipWaiting" then skipWaiting
  else if data = "downloadOffline" then detached (downloadOffline origin network)
  else pure ()

/-! ## Effects of the loops, as functions on caches -/

/-- Effect of one round of the eviction loop on the content cache. -/
def evictEntry (origin : String) (old : Table) (c : Cache) (request : String) : Cache :=
  if evicts old (requestKey origin request) then cacheDelete c request else c

/-- The content cache after the eviction loop ran over it with the old manifest `old`. -/
def evictCache (origin : String) (old : Table) (content : Cache) : Cache :=
  (cacheKeys content).foldl (evictEntry origin old) content

/-- Effect of one round of the copy loop on the content cache. -/
def copyEntry (temp : Cache) (c : Cache) (request : String) : Cache :=
  match cacheMatch temp request with
  | some response => cachePut c request response
  | none => c

/-- The content cache after the entries of `temp` were copied into it. -/
def populateCache (content temp : Cache) : Cache :=
  (cacheKeys temp).foldl (copyEntry temp) content

/-- The cache storage with every partition deleted. -/
def allDeleted : CacheStorage :=
  { content := none, temp := none, manifest := none }

/-! ## Auxiliary definitions for the statements -/

/-- The storage a successful `try` block leaves, computed without the host. -/
def activated (origin : String) (s : CacheStorage) : Option CacheStorage :=
  match cacheMatch (s.entries .MANIFEST) (resolveUrl origin "manifest") with
  | none =>
    some
      { content := some (populateCache [] (s.entries .TEMP))
        temp := none
        manifest := some (cachePut (s.entries .MANIFEST) (resolveUrl origin "manifest")
          manifestResponse) }
  | some manifest =>
    match jsonParse manifest.body with
    | none => none
    | some oldManifest =>
      some
        { content := some (populateCache
            (evictCache origin oldManifest (s.entries .CACHE_NAME)) (s.entries .TEMP))
          temp := none
          manifest := some (cachePut (s.entries .MANIFEST) (resolveUrl origin "manifest")
            manifestResponse) }

/-- A character `JSON.stringify` writes as itself. -/
def isPlain (c : Char) : Bool :=
  c != quoteMark && c != backslash && !(decide (c.toNat < 32))

/-- The table `JSON.parse` builds from the members of `t` in order. -/
def defineAll (t0 t : Table) : Table :=
  t.foldl (fun acc e => defineMember acc e.1 e.2) t0

/-- The manifest cache holds no entry under another key than `'manifest'`. -/
def ManifestOnly (origin : String) (s : CacheStorage) : Prop :=
  ∀ e ∈ s.entries .MANIFEST, e.1 = resolveUrl origin "manifest"

/-- The computation `m` keeps the property `I` of the cache storage, however it ends. -/
def Preserves {α : Type} (I : CacheStorage → Prop) (m : Async α) : Prop :=
  ∀ w : World, I w.caches → I (m w).2.caches

/-! ## Sample states -/

/-- A sample origin. -/
def sampleOrigin : String := "https://marshes.example"

/-- A sample response, as stored by an earlier version of the worker. -/
def staleResponse : Response :=
  { body := "stale", status := 200, varyAll := false }

/-- A sample response, as downloaded at install time. -/
def freshResponse : Response :=
  { body := "fresh", status := 200, varyAll := false }

/-- A sample response with an unsuccessful status. -/
def missingResponse : Response :=
  { body := "not found", status := 404, varyAll := false }

/-- A manifest entry as an earlier version of the worker wrote it: `main.dart.js` and
`flutter.js` have the hashes they still have, `index.html` had another one. -/
def oldManifestEntry : String × Response :=
  ("https://marshes.example/manifest",
    { body := jsonStringify
        [("main.dart.js", "1a619c9d88fb59f86e4198f87f9eb544"),
         ("flutter.js", "4b2350e14c6650ba82871f60906437ea"),
         ("index.html", "00000000000000000000000000000000")]
      status := 200
      varyAll := false })

/-- First activation: the shell is staged, nothing else is stored; the staged files include
one that the current table no longer lists. -/
def firstInstallWorld : World :=
  { caches :=
      { content := none
        temp := some
          [("https://marshes.example/main.dart.js", freshResponse),
           ("https://marshes.example/assets/retired.png", freshResponse)]
        manifest := none }
    faults := []
    log := [] }

/-- An upgrade: an earlier manifest is stored, the content cache holds an unchanged file,
a changed file and a file the table does not list, and a new `main.dart.js` is staged. -/
def upgradeWorld : World :=
  { caches :=
      { content := some
          [("https://marshes.example/main.dart.js", staleResponse),
           ("https://marshes.example/index.html", staleResponse),
           ("https://marshes.example/flutter.js", staleResponse),
           ("https://marshes.example/unlisted.txt", staleResponse)]
        temp := some [("https://marshes.example/main.dart.js", freshResponse)]
        manifest := some [oldManifestEntry] }
    faults := []
    log := [] }

/-- An upgrade in which the content cache holds a response for `/constructor`, as the fetch
handler stores one, and nothing is staged. -/
def inheritedKeyWorld : World :=
  { caches :=
      { content := some [("https://marshes.example/constructor", staleResponse)]
        temp := some []
        manifest := some [oldManifestEntry] }
    faults := []
    log := [] }

/-- An upgrade during which the host rejects the first call, and then the first deletion of
the recovery as well. -/
def rejectingWorld : World :=
  { upgradeWorld with faults := [true, true] }

/-- An upgrade during which the host rejects the fifth call, the reading of the old manifest,
and no other. -/
def faultyWorld : World :=
  { upgradeWorld with faults := [false, false, false, false, true] }

/-- A network on which every fetch succeeds with `freshResponse`. -/
def onlineNetwork : Network :=
  fun _ => .ok freshResponse

/-- A network on which every fetch fails. -/
def offlineNetwork : Network :=
  fun _ => .error "offline"

/-- A network on which every fetch is answered with an unsuccessful status. -/
def missingNetwork : Network :=
  fun _ => .ok missingResponse

/-- A storage whose content cache holds responses for the root document, for `index.html`
and for `main.dart.js`. -/
def servingCaches : CacheStorage :=
  { content := some
      [("https://marshes.example/", staleResponse),
       ("https://marshes.example/index.html", staleResponse),
       ("https://marshes.example/main.dart.js", staleResponse)]
    temp := none
    manifest := some [oldManifestEntry] }

/-- A partial response, as a server gives to a range request: its status 206 is an ok status,
and the host does not store it. -/
def partialResponse : Response :=
  { body := "partial", status := 206, varyAll := false }

/-- A response of status 200 whose `Vary` header is `*`, which the host does not store. -/
def variedResponse : Response :=
  { body := "varied", status := 200, varyAll := true }

/-- A network on which every fetch is answered with `partialResponse`. -/
def partialNetwork : Network :=
  fun _ => .ok partialResponse

/-- A network on which every fetch is answered with `variedResponse`. -/
def variedNetwork : Network :=
  fun _ => .ok variedResponse

/-- The storage `servingCaches` on a host that rejects nothing. -/
def servingWorld : World :=
  { caches := servingCaches, faults := [], log := [] }

/-- The storage `servingCaches` on a host that rejects the first cache call it receives. -/
def refusingWorld : World :=
  { caches := servingCaches, faults := [true], log := [] }

/-- A storage whose content cache holds the root document under a URL with a fragment, as
`onlineFirst` stores it for a request of that URL, and `main.dart.js`. -/
def fragmentWorld : World :=
  { caches :=
      { content := some
          [("https://marshes.example/#/home", staleResponse),
           ("https://marshes.example/main.dart.js", staleResponse)]
        temp := none
        manifest := some [oldManifestEntry] }
    faults := []
    log := [] }

/-- A storage whose content cache holds `flutter.js` under a URL with a version suffix, as
the fetch handler stores it for a request of that URL. -/
def versionedWorld : World :=
  { caches :=
      { content := some [("https://marshes.example/flutter.js?v=2", staleResponse)]
        temp := none
        manifest := some [oldManifestEntry] }
    faults := []
    log := [] }

/-- The keys of `RESOURCES`, in the order of the table, that are the key of no entry of the
cache `c`. -/
def uncachedKeys (origin : String) (c : Cache) : List String :=
  (objectKeys RESOURCES).filter
    (fun k => decide (k ∉ (cacheKeys c).map (requestKey origin)))

/-! ## Running asynchronous computations -/



theorem bind_ok_iff {α β : Type} (m : Async α) (k : α → Async β) (w w' : World) (b : β) :
    (m >>= k) w = (.ok b, w') ↔ ∃ a w1, m w = (.ok a, w1) ∧ k a w1 = (.ok b, w') := by
  show (match m w with
    | (.ok a, w1) => k a w1
    | (.error e, w1) => (.error e, w1)) = _ ↔ _
  rcases h : m w with ⟨r, w1⟩
  cases r with
  | ok a =>
    constructor
    · intro hk
      exact ⟨a, w1, rfl, hk⟩
    · rintro ⟨a1, w2, heq, hk⟩
      cases heq
      exact hk
  | error e => simp

theorem pure_ok_iff {α : Type} (a b : α) (w w' : World) :
    (pure a : Async α) w = (.ok b, w') ↔ a = b ∧ w = w' := by
  show ((Except.ok a : Except Exception α), w) = (.ok b, w') ↔ _
  simp

theorem hostCall_ok {c : HostCall} {w w' : World} {u : Unit}
    (h : hostCall c w = (.ok u, w')) : w'.caches = w.caches := by
  unfold hostCall at h
  split at h
  · cases h; rfl
  · cases h; rfl
  · cases h

theorem cachesOpen_ok {n : CacheName} {w w' : World} {u : Unit}
    (h : cachesOpen n w = (.ok u, w')) : w'.caches = w.caches.opened n := by
  unfold cachesOpen at h
  rw [bind_ok_iff] at h
  obtain ⟨a, w1, h1, h2⟩ := h
  have hc := hostCall_ok h1
  cases h2
  simp [hc]

theorem cachesDelete_ok {n : CacheName} {w w' : World} {u : Unit}
    (h : cachesDelete n w = (.ok u, w')) : w'.caches = w.caches.deleted n := by
  unfold cachesDelete at h
  rw [bind_ok_iff] at h
  obtain ⟨a, w1, h1, h2⟩ := h
  have hc := hostCall_ok h1
  cases h2
  simp [hc]

theorem cacheMatchAsync_ok {n : CacheName} {url : String} {w w' : World}
    {r : Option Response} (h : cacheMatchAsync n url w = (.ok r, w')) :
    w'.caches = w.caches ∧ r = cacheMatch (w.caches.entries n) url := by
  unfold cacheMatchAsync at h
  rw [bind_ok_iff] at h
  obtain ⟨a, w1, h1, h2⟩ := h
  have hc := hostCall_ok h1
  rw [bind_ok_iff] at h2
  obtain ⟨s, w2, h3, h4⟩ := h2
  cases h3
  rw [pure_ok_iff] at h4
  obtain ⟨h5, h6⟩ := h4
  subst h6
  exact ⟨hc, by rw [← h5, hc]⟩

theorem cacheKeysAsync_ok {n : CacheName} {w w' : World}
    {r : List String} (h : cacheKeysAsync n w = (.ok r, w')) :
    w'.caches = w.caches ∧ r = cacheKeys (w.caches.entries n) := by
  unfold cacheKeysAsync at h
  rw [bind_ok_iff] at h
  obtain ⟨a, w1, h1, h2⟩ := h
  have hc := hostCall_ok h1
  rw [bind_ok_iff] at h2
  obtain ⟨s, w2, h3, h4⟩ := h2
  cases h3
  rw [pure_ok_iff] at h4
  obtain ⟨h5, h6⟩ := h4
  subst h6
  exact ⟨hc, by rw [← h5, hc]⟩

theorem cachePutAsync_ok {n : CacheName} {url : String} {response : Option Response}
    {w w' : World} {u : Unit} (h : cachePutAsync n url response w = (.ok u, w')) :
    ∃ r, response = some r ∧ storable r = true
      ∧ w'.caches = w.caches.update n (fun c => cachePut c url r) := by
  unfold cachePutAsync at h
  cases response with
  | none => cases h
  | some r =>
    simp only at h
    rw [bind_ok_iff] at h
    obtain ⟨a, w1, h1, h2⟩ := h
    have hc := hostCall_ok h1
    by_cases hs : storable r = true
    · rw [if_pos hs] at h2
      cases h2
      exact ⟨r, rfl, hs, by simp [hc]⟩
    · rw [if_neg hs] at h2
      cases h2

theorem cacheDeleteAsync_ok {n : CacheName} {url : String} {w w' : World} {u : Unit}
    (h : cacheDeleteAsync n url w = (.ok u, w')) :
    w'.caches = w.caches.update n (fun c => cacheDelete c url) := by
  unfold cacheDeleteAsync at h
  rw [bind_ok_iff] at h
  obtain ⟨a, w1, h1, h2⟩ := h
  have hc := hostCall_ok h1
  cases h2
  simp [hc]

theorem responseJson_ok {r : Response} {w w' : World} {t : Table}
    (h : responseJson r w = (.ok t, w')) :
    w'.caches = w.caches ∧ jsonParse r.body = some t := by
  unfold responseJson at h
  rw [bind_ok_iff] at h
  obtain ⟨a, w1, h1, h2⟩ := h
  have hc := hostCall_ok h1
  cases hp : jsonParse r.body with
  | none =>
    rw [hp] at h2
    cases h2
  | some t1 =>
    rw [hp] at h2
    simp only at h2
    rw [pure_ok_iff] at h2
    obtain ⟨h5, h6⟩ := h2
    subst h6
    exact ⟨hc, by rw [h5]⟩

theorem clientsClaim_ok {w w' : World} {u : Unit}
    (h : clientsClaim w = (.ok u, w')) : w'.caches = w.caches := by
  cases h
  rfl

theorem populateLoop_ok (t : Cache) (m : Option Cache) :
    ∀ (requests : List String) (c : Cache) (w w' : World) (u : Unit),
      w.caches = ⟨some c, some t, m⟩ →
      forEach requests populateStep w = (.ok u, w') →
      w'.caches = ⟨some (requests.foldl (copyEntry t) c), some t, m⟩ := by
  intro requests
  induction requests with
  | nil =>
    intro c w w' u hw h
    cases h
    simpa using hw
  | cons x xs ih =>
    intro c w w' u hw h
    unfold forEach at h
    rw [bind_ok_iff] at h
    obtain ⟨a, w1, h1, h2⟩ := h
    unfold populateStep at h1
    rw [bind_ok_iff] at h1
    obtain ⟨response, w2, h3, h4⟩ := h1
    obtain ⟨hc2, hr⟩ := cacheMatchAsync_ok h3
    obtain ⟨r, hsome, -, hc1⟩ := cachePutAsync_ok h4
    have hm : cacheMatch t x = some r := by
      rw [← hsome, hr, hw]
      rfl
    have hw1 : w1.caches = ⟨some (cachePut c x r), some t, m⟩ := by
      rw [hc1, hc2, hw]
      rfl
    have := ih (cachePut c x r) w1 w' u hw1 h2
    rw [this]
    simp [List.foldl, copyEntry, hm]

theorem populate_ok {c t : Cache} {m : Option Cache} {w w' : World} {u : Unit}
    (hw : w.caches = ⟨some c, some t, m⟩) (h : populate w = (.ok u, w')) :
    w'.caches = ⟨some (populateCache c t), some t, m⟩ := by
  unfold populate at h
  rw [bind_ok_iff] at h
  obtain ⟨requests, w1, h1, h2⟩ := h
  obtain ⟨hc, hr⟩ := cacheKeysAsync_ok h1
  have hk : requests = cacheKeys t := by
    rw [hr, hw]
    rfl
  subst hk
  exact populateLoop_ok t m _ c w1 w' u (hc.trans hw) h2

theorem evictLoop_ok (origin : String) (old : Table) (t m : Option Cache) :
    ∀ (requests : List String) (c : Cache) (w w' : World) (u : Unit),
      w.caches = ⟨some c, t, m⟩ →
      forEach requests (evictStep origin old) w = (.ok u, w') →
      w'.caches = ⟨some (requests.foldl (evictEntry origin old) c), t, m⟩ := by
  intro requests
  induction requests with
  | nil =>
    intro c w w' u hw h
    cases h
    simpa using hw
  | cons x xs ih =>
    intro c w w' u hw h
    unfold forEach at h
    rw [bind_ok_iff] at h
    obtain ⟨a, w1, h1, h2⟩ := h
    unfold evictStep at h1
    by_cases he : evicts old (requestKey origin x) = true
    · rw [if_pos he] at h1
      have hc1 := cacheDeleteAsync_ok h1
      have hw1 : w1.caches = ⟨some (cacheDelete c x), t, m⟩ := by
        rw [hc1, hw]
        rfl
      have := ih (cacheDelete c x) w1 w' u hw1 h2
      rw [this]
      simp [List.foldl, evictEntry, he]
    · rw [if_neg he] at h1
      rw [pure_ok_iff] at h1
      obtain ⟨-, hww⟩ := h1
      subst hww
      have := ih c w w' u hw h2
      rw [this]
      simp [List.foldl, evictEntry, he]

theorem opened_all (s : CacheStorage) :
    ((s.opened .CACHE_NAME).opened .TEMP).opened .MANIFEST
      = ⟨some (s.entries .CACHE_NAME), some (s.entries .TEMP), some (s.entries .MANIFEST)⟩ := by
  rcases s with ⟨c, t, m⟩
  cases c <;> cases t <;> cases m <;> rfl

theorem activateTry_ok {origin : String} {w w' : World} {u : Unit}
    (h : activateTry origin w = (.ok u, w')) :
    activated origin w.caches = some w'.caches := by
  unfold activateTry at h
  rw [bind_ok_iff] at h
  obtain ⟨_, w1, h1, h⟩ := h
  rw [bind_ok_iff] at h
  obtain ⟨_, w2, h2, h⟩ := h
  rw [bind_ok_iff] at h
  obtain ⟨_, w3, h3, h⟩ := h
  rw [bind_ok_iff] at h
  obtain ⟨manifest, w4, h4, h⟩ := h
  have hs3 : w3.caches = ⟨some (w.caches.entries .CACHE_NAME), some (w.caches.entries .TEMP),
      some (w.caches.entries .MANIFEST)⟩ := by
    rw [cachesOpen_ok h3, cachesOpen_ok h2, cachesOpen_ok h1, opened_all]
  obtain ⟨hs4, hm⟩ := cacheMatchAsync_ok h4
  rw [hs3] at hm
  change manifest = cacheMatch (w.caches.entries .MANIFEST) (resolveUrl origin "manifest") at hm
  rw [hs3] at hs4
  unfold activated
  rw [← hm]
  cases manifest with
  | none =>
    simp only at h
    rw [bind_ok_iff] at h
    obtain ⟨_, w5, h5, h⟩ := h
    rw [bind_ok_iff] at h
    obtain ⟨_, w6, h6, h⟩ := h
    rw [bind_ok_iff] at h
    obtain ⟨_, w7, h7, h⟩ := h
    rw [bind_ok_iff] at h
    obtain ⟨_, w8, h8, h⟩ := h
    rw [bind_ok_iff] at h
    obtain ⟨_, w9, h9, h⟩ := h
    have hs6 : w6.caches = ⟨some [], some (w.caches.entries .TEMP),
        some (w.caches.entries .MANIFEST)⟩ := by
      rw [cachesOpen_ok h6, cachesDelete_ok h5, hs4]
      rfl
    have hs7 := populate_ok hs6 h7
    obtain ⟨r, hr, -, hs9⟩ := cachePutAsync_ok h9
    cases hr
    rw [clientsClaim_ok h, hs9, cachesDelete_ok h8, hs7]
    rfl
  | some manifest =>
    simp only at h
    rw [bind_ok_iff] at h
    obtain ⟨old, w5, h5, h⟩ := h
    rw [bind_ok_iff] at h
    obtain ⟨requests, w6, h6, h⟩ := h
    rw [bind_ok_iff] at h
    obtain ⟨_, w7, h7, h⟩ := h
    rw [bind_ok_iff] at h
    obtain ⟨_, w8, h8, h⟩ := h
    rw [bind_ok_iff] at h
    obtain ⟨_, w9, h9, h⟩ := h
    rw [bind_ok_iff] at h
    obtain ⟨_, w10, h10, h⟩ := h
    obtain ⟨hs5, hp⟩ := responseJson_ok h5
    obtain ⟨hs6, hk⟩ := cacheKeysAsync_ok h6
    rw [hs5, hs4] at hk hs6
    change requests = cacheKeys (w.caches.entries .CACHE_NAME) at hk
    subst hk
    have hs7 := evictLoop_ok origin old _ _ _ _ w6 w7 _ hs6 h7
    have hs8 := populate_ok hs7 h8
    obtain ⟨r, hr, -, hs10⟩ := cachePutAsync_ok h10
    cases hr
    simp only [hp]
    rw [clientsClaim_ok h, hs10, cachesDelete_ok h9, hs8]
    rfl

/-! ## The serialised table read back -/

theorem quoteChar_plain {c : Char} (h : isPlain c = true) : quoteChar c = [c] := by
  simp only [isPlain, Bool.and_eq_true, bne_iff_ne, ne_eq, Bool.not_eq_true', decide_eq_false_iff_not] at h
  obtain ⟨⟨h1, h2⟩, h3⟩ := h
  unfold quoteChar
  rw [if_neg h1, if_neg h2, if_neg (by omega), if_neg (by omega), if_neg (by omega),
    if_neg (by omega), if_neg (by omega), if_neg h3]

theorem stringStep_plain (acc : List Char) {c : Char} (h : isPlain c = true) :
    stringStep acc .plain c = .more (c :: acc) .plain := by
  simp only [isPlain, Bool.and_eq_true, bne_iff_ne, ne_eq, Bool.not_eq_true', decide_eq_false_iff_not] at h
  obtain ⟨⟨h1, h2⟩, h3⟩ := h
  simp only [stringStep]
  rw [if_neg h1, if_neg h2, if_neg h3]

theorem scan_key (t : Table) :
    ∀ (cs acc : List Char), (∀ c ∈ cs, isPlain c = true) →
      (cs.flatMap quoteChar).foldl parseStep (t, .key acc .plain)
        = (t, .key (cs.reverse ++ acc) .plain) := by
  intro cs
  induction cs with
  | nil => intro acc _; rfl
  | cons c cs ih =>
    intro acc h
    have hc := h c (List.mem_cons_self _ _)
    rw [List.flatMap_cons, quoteChar_plain hc, List.singleton_append, List.foldl_cons]
    have : parseStep (t, .key acc .plain) c = (t, .key (c :: acc) .plain) := by
      simp only [parseStep, stringStep_plain acc hc]
    rw [this, ih (c :: acc) (fun d hd => h d (List.mem_cons_of_mem _ hd))]
    simp

theorem scan_value (t : Table) (k : String) :
    ∀ (cs acc : List Char), (∀ c ∈ cs, isPlain c = true) →
      (cs.flatMap quoteChar).foldl parseStep (t, .value k acc .plain)
        = (t, .value k (cs.reverse ++ acc) .plain) := by
  intro cs
  induction cs with
  | nil => intro acc _; rfl
  | cons c cs ih =>
    intro acc h
    have hc := h c (List.mem_cons_self _ _)
    rw [List.flatMap_cons, quoteChar_plain hc, List.singleton_append, List.foldl_cons]
    have : parseStep (t, .value k acc .plain) c = (t, .value k (c :: acc) .plain) := by
      simp only [parseStep, stringStep_plain acc hc]
    rw [this, ih (c :: acc) (fun d hd => h d (List.mem_cons_of_mem _ hd))]
    simp

/-- Reading one member `"k":"v"` defines it. -/
theorem scan_member (t : Table) (k v : String) (st : ParseState)
    (hst : st = .opened ∨ st = .afterComma)
    (hk : ∀ c ∈ k.data, isPlain c = true) (hv : ∀ c ∈ v.data, isPlain c = true) :
    (quoteString k ++ ':' :: quoteString v).foldl parseStep (t, st)
      = (defineMember t k v, .afterValue) := by
  have h0 : parseStep (t, st) quoteMark = (t, .key [] .plain) := by
    rcases hst with h | h <;> subst h <;> rfl
  unfold quoteString
  rw [List.cons_append, List.foldl_cons, h0, List.append_assoc, List.foldl_append,
    scan_key t _ _ hk]
  simp only [List.append_nil, List.singleton_append, List.foldl_cons, List.foldl_append]
  have h1 : parseStep (t, .key k.data.reverse .plain) quoteMark = (t, .afterKey k) := by
    simp [parseStep, stringStep]
  rw [h1]
  have h2 : parseStep (t, .afterKey k) ':' = (t, .afterColon k) := by
    rfl
  rw [h2]
  have h3 : parseStep (t, .afterColon k) quoteMark = (t, .value k [] .plain) := by
    rfl
  rw [h3, scan_value t k _ _ hv]
  simp [parseStep, stringStep]

theorem scan_members :
    ∀ (tbl : Table) (t0 : Table) (st : ParseState), tbl ≠ [] →
      (st = .opened ∨ st = .afterComma) →
      (∀ e ∈ tbl, (∀ c ∈ e.1.data, isPlain c = true) ∧ (∀ c ∈ e.2.data, isPlain c = true)) →
      (stringifyMembers tbl).foldl parseStep (t0, st) = (defineAll t0 tbl, .afterValue) := by
  intro tbl
  induction tbl with
  | nil => intro t0 st h; exact absurd rfl h
  | cons e rest ih =>
    intro t0 st _ hst hp
    obtain ⟨k, v⟩ := e
    have he := hp (k, v) (List.mem_cons_self _ _)
    cases rest with
    | nil =>
      simp only [stringifyMembers]
      rw [scan_member t0 k v st hst he.1 he.2]
      rfl
    | cons e2 rest2 =>
      simp only [stringifyMembers]
      rw [show quoteString k ++ ':' :: quoteString v ++ ',' :: stringifyMembers (e2 :: rest2)
        = (quoteString k ++ ':' :: quoteString v) ++ ',' :: stringifyMembers (e2 :: rest2) by simp]
      rw [List.foldl_append, scan_member t0 k v st hst he.1 he.2, List.foldl_cons]
      have hc : parseStep (defineMember t0 k v, .afterValue) ',' = (defineMember t0 k v, .afterComma) := by
        rfl
      rw [hc, ih (defineMember t0 k v) .afterComma (by simp) (Or.inr rfl)
        (fun e he => hp e (List.mem_cons_of_mem _ he))]
      rfl

/-- Parsing the serialisation of a table of plain strings rebuilds the table member by
member. -/
theorem jsonParse_jsonStringify (tbl : Table)
    (hp : ∀ e ∈ tbl, (∀ c ∈ e.1.data, isPlain c = true) ∧ (∀ c ∈ e.2.data, isPlain c = true)) :
    jsonParse (jsonStringify tbl) = some (defineAll [] tbl) := by
  unfold jsonParse jsonStringify
  simp only [List.foldl_cons, List.foldl_append, List.foldl_nil]
  have h0 : parseStep ([], .start) (Char.ofNat 123) = ([], .opened) := by rfl
  rw [h0]
  by_cases hn : tbl = []
  · subst hn
    rfl
  · rw [scan_members tbl [] .opened hn (Or.inl rfl) hp]
    rfl

theorem RESOURCES_plain :
    ∀ e ∈ RESOURCES, (∀ c ∈ e.1.data, isPlain c = true) ∧ (∀ c ∈ e.2.data, isPlain c = true) := by
  decide!

theorem defineAll_RESOURCES : defineAll [] RESOURCES = RESOURCES := by
  decide!

theorem jsonParse_manifestResponse : jsonParse manifestResponse.body = some RESOURCES := by
  show jsonParse (jsonStringify RESOURCES) = some RESOURCES
  rw [jsonParse_jsonStringify RESOURCES RESOURCES_plain, defineAll_RESOURCES]

/-! ## Cache partitions as maps -/

theorem sameRequest_iff {a b : String} :
    sameRequest a b = true ↔ withoutFragment a = withoutFragment b := by
  simp [sameRequest]

theorem sameRequest_false_iff {a b : String} :
    sameRequest a b = false ↔ withoutFragment a ≠ withoutFragment b := by
  simp [sameRequest]

theorem sameRequest_refl (a : String) : sameRequest a a = true := by
  simp [sameRequest]

theorem sameRequest_comm (a b : String) : sameRequest a b = sameRequest b a := by
  unfold sameRequest
  by_cases h : withoutFragment a = withoutFragment b
  · simp [h]
  · have h2 : withoutFragment b ≠ withoutFragment a := fun h3 => h h3.symm
    simp [h, h2]

theorem sameRequest_congr {a b : String} (h : sameRequest a b = true) (q : String) :
    sameRequest a q = sameRequest b q := by
  unfold sameRequest
  rw [sameRequest_iff.mp h]

theorem mem_cacheDelete {c : Cache} {u : String} {e : String × Response} :
    e ∈ cacheDelete c u ↔ e ∈ c ∧ sameRequest e.1 u = false := by
  simp [cacheDelete]

theorem mem_cachePut {c : Cache} {u : String} {r : Response} {e : String × Response} :
    e ∈ cachePut c u r ↔ (e ∈ c ∧ sameRequest e.1 u = false) ∨ e = (u, r) := by
  simp [cachePut, cacheDelete]

theorem cacheMatch_cons (e : String × Response) (c : Cache) (q : String) :
    cacheMatch (e :: c) q = if sameRequest e.1 q then some e.2 else cacheMatch c q := rfl

theorem cacheMatch_append (c d : Cache) (q : String) :
    cacheMatch (c ++ d) q = (cacheMatch c q).orElse (fun _ => cacheMatch d q) := by
  induction c with
  | nil => rfl
  | cons e c ih =>
    rw [List.cons_append, cacheMatch_cons, cacheMatch_cons, ih]
    by_cases h : sameRequest e.1 q = true
    · simp [h]
    · simp [h]

theorem cacheMatch_congr {a b : String} (h : sameRequest a b = true) (c : Cache) :
    cacheMatch c a = cacheMatch c b := by
  induction c with
  | nil => rfl
  | cons e c ih =>
    rw [cacheMatch_cons, cacheMatch_cons, ih, sameRequest_comm e.1 a, sameRequest_congr h,
      sameRequest_comm b e.1]

theorem cacheMatch_cacheDelete (c : Cache) (u q : String) :
    cacheMatch (cacheDelete c u) q = if sameRequest u q then none else cacheMatch c q := by
  unfold cacheDelete
  induction c with
  | nil => simp [cacheMatch]
  | cons e c ih =>
    by_cases hk : sameRequest e.1 u = true
    · have hf : List.filter (fun e => !sameRequest e.1 u) (e :: c)
          = List.filter (fun e => !sameRequest e.1 u) c := by
        simp [List.filter, hk]
      rw [hf, ih, cacheMatch_cons, sameRequest_congr hk]
      by_cases hq : sameRequest u q = true
      · simp [hq]
      · simp [hq]
    · have hf : List.filter (fun e => !sameRequest e.1 u) (e :: c)
          = e :: List.filter (fun e => !sameRequest e.1 u) c := by
        simp [List.filter, hk]
      rw [hf, cacheMatch_cons, ih, cacheMatch_cons]
      by_cases hq : sameRequest u q = true
      · have he : sameRequest e.1 q = false := by
          cases hx : sameRequest e.1 q with
          | false => rfl
          | true =>
            exfalso
            apply hk
            rw [sameRequest_congr hx, sameRequest_comm]
            exact hq
        simp [hq, he]
      · simp [hq]

theorem cacheMatch_cachePut (c : Cache) (u q : String) (r : Response) :
    cacheMatch (cachePut c u r) q = if sameRequest u q then some r else cacheMatch c q := by
  unfold cachePut
  rw [cacheMatch_append, cacheMatch_cacheDelete, cacheMatch_cons]
  by_cases hq : sameRequest u q = true
  · simp [hq]
  · simp [hq, cacheMatch]

theorem cacheMatch_isSome_of_mem_keys {c : Cache} {q : String} (h : q ∈ cacheKeys c) :
    ∃ r, cacheMatch c q = some r := by
  unfold cacheKeys at h
  induction c with
  | nil => simp at h
  | cons e c ih =>
    rw [cacheMatch_cons]
    by_cases hq : sameRequest e.1 q = true
    · exact ⟨e.2, by simp [hq]⟩
    · have hne : q ≠ e.1 := by
        intro heq
        apply hq
        rw [heq]
        exact sameRequest_refl _
      have hmem : q ∈ List.map (fun e => e.1) c := by
        simpa [hne] using h
      obtain ⟨r, hr⟩ := ih hmem
      exact ⟨r, by simp [hq, hr]⟩

/-- A request that matches nothing in the cache is the request of none of its entries. -/
theorem not_sameRequest_of_cacheMatch_none {c : Cache} {q : String}
    (h : cacheMatch c q = none) : ∀ e ∈ c, sameRequest e.1 q = false := by
  induction c with
  | nil => intro e he; cases he
  | cons x c ih =>
    rw [cacheMatch_cons] at h
    by_cases hq : sameRequest x.1 q = true
    · simp [hq] at h
    · simp only [hq] at h
      intro e he
      rcases List.mem_cons.mp he with h1 | h1
      · rw [h1]
        simpa using hq
      · exact ih (by simpa using h) e h1

/-! ## The eviction loop and the copy loop on caches -/

theorem evictEntry_pos {origin : String} {old : Table} {x : String} (c : Cache)
    (h : evicts old (requestKey origin x) = true) :
    evictEntry origin old c x = cacheDelete c x := by
  unfold evictEntry
  rw [if_pos h]

theorem evictEntry_neg {origin : String} {old : Table} {x : String} (c : Cache)
    (h : ¬ evicts old (requestKey origin x) = true) :
    evictEntry origin old c x = c := by
  unfold evictEntry
  rw [if_neg h]

theorem copyEntry_none {t : Cache} {x : String} (c : Cache) (h : cacheMatch t x = none) :
    copyEntry t c x = c := by
  unfold copyEntry
  rw [h]

theorem copyEntry_some {t : Cache} {x : String} {r : Response} (c : Cache)
    (h : cacheMatch t x = some r) : copyEntry t c x = cachePut c x r := by
  unfold copyEntry
  rw [h]

theorem mem_evictFold (origin : String) (old : Table) (e : String × Response) :
    ∀ (requests : List String) (c : Cache),
      e ∈ requests.foldl (evictEntry origin old) c
        ↔ e ∈ c ∧ ¬ ∃ x ∈ requests,
            sameRequest e.1 x = true ∧ evicts old (requestKey origin x) = true := by
  intro requests
  induction requests with
  | nil => intro c; simp
  | cons x xs ih =>
    intro c
    rw [List.foldl_cons, ih]
    by_cases hx : evicts old (requestKey origin x) = true
    · rw [evictEntry_pos c hx, mem_cacheDelete]
      constructor
      · rintro ⟨⟨hc, hne⟩, hn⟩
        refine ⟨hc, ?_⟩
        rintro ⟨y, hy, hsame, hev⟩
        rcases List.mem_cons.mp hy with h | h
        · rw [h, hne] at hsame
          cases hsame
        · exact hn ⟨y, h, hsame, hev⟩
      · rintro ⟨hc, hn⟩
        refine ⟨⟨hc, ?_⟩, ?_⟩
        · cases hs : sameRequest e.1 x with
          | false => rfl
          | true => exact absurd ⟨x, List.mem_cons_self _ _, hs, hx⟩ hn
        · rintro ⟨y, hy, hsame, hev⟩
          exact hn ⟨y, List.mem_cons_of_mem _ hy, hsame, hev⟩
    · rw [evictEntry_neg c hx]
      constructor
      · rintro ⟨hc, hn⟩
        refine ⟨hc, ?_⟩
        rintro ⟨y, hy, hsame, hev⟩
        rcases List.mem_cons.mp hy with h | h
        · rw [h] at hev
          exact hx hev
        · exact hn ⟨y, h, hsame, hev⟩
      · rintro ⟨hc, hn⟩
        exact ⟨hc, fun ⟨y, hy, hsame, hev⟩ => hn ⟨y, List.mem_cons_of_mem _ hy, hsame, hev⟩⟩

/-- An entry that outlives the eviction loop has a key the test spares. -/
theorem evicts_false_of_mem_evictCache {origin : String} {old : Table} {c : Cache}
    {e : String × Response} (h : e ∈ evictCache origin old c) :
    e ∈ c ∧ evicts old (requestKey origin e.1) = false := by
  unfold evictCache at h
  rw [mem_evictFold] at h
  obtain ⟨hc, hn⟩ := h
  refine ⟨hc, ?_⟩
  cases hev : evicts old (requestKey origin e.1) with
  | false => rfl
  | true =>
    exact absurd ⟨e.1, List.mem_map.mpr ⟨e, hc, rfl⟩, sameRequest_refl _, hev⟩ hn

/-- In a cache where no other entry has the request of `e`, the entry outlives the eviction
loop exactly when the test spares its key. -/
theorem mem_evictCache {origin : String} {old : Table} {c : Cache} {e : String × Response}
    (hone : ∀ x ∈ c, sameRequest e.1 x.1 = true → x.1 = e.1) :
    e ∈ evictCache origin old c ↔ e ∈ c ∧ evicts old (requestKey origin e.1) = false := by
  constructor
  · exact evicts_false_of_mem_evictCache
  · rintro ⟨hc, hev⟩
    unfold evictCache
    rw [mem_evictFold]
    refine ⟨hc, ?_⟩
    rintro ⟨y, hy, hsame, hevy⟩
    obtain ⟨x, hx, hxy⟩ := List.mem_map.mp hy
    have : x.1 = e.1 := hone x hx (by rw [hxy]; exact hsame)
    rw [← hxy, this, hev] at hevy
    cases hevy

theorem mem_populateFold (t : Cache) (e : String × Response) :
    ∀ (requests : List String) (c : Cache),
      (∀ x ∈ requests, sameRequest e.1 x = false) →
      (e ∈ requests.foldl (copyEntry t) c ↔ e ∈ c) := by
  intro requests
  induction requests with
  | nil => intro c _; simp
  | cons x xs ih =>
    intro c hn
    have hx : sameRequest e.1 x = false := hn x (List.mem_cons_self _ _)
    have hxs : ∀ y ∈ xs, sameRequest e.1 y = false :=
      fun y hy => hn y (List.mem_cons_of_mem _ hy)
    rw [List.foldl_cons, ih _ hxs]
    cases hm : cacheMatch t x with
    | none => rw [copyEntry_none c hm]
    | some r =>
      rw [copyEntry_some c hm, mem_cachePut]
      constructor
      · rintro (⟨hc, -⟩ | heq)
        · exact hc
        · rw [heq, sameRequest_refl] at hx
          cases hx
      · intro hc
        exact Or.inl ⟨hc, hx⟩

/-- An entry whose request no staged request matches is in the content cache after the copy
loop exactly when it was there before. -/
theorem mem_populateCache {c t : Cache} {e : String × Response}
    (h : ∀ x ∈ cacheKeys t, sameRequest e.1 x = false) :
    e ∈ populateCache c t ↔ e ∈ c :=
  mem_populateFold t e (cacheKeys t) c h

theorem mem_populateFold_cases (t : Cache) (e : String × Response) :
    ∀ (requests : List String) (c : Cache),
      e ∈ requests.foldl (copyEntry t) c → e ∈ c ∨ e.1 ∈ requests := by
  intro requests
  induction requests with
  | nil => intro c h; exact Or.inl h
  | cons x xs ih =>
    intro c h
    rw [List.foldl_cons] at h
    rcases ih _ h with h1 | h1
    · cases hm : cacheMatch t x with
      | none =>
        rw [copyEntry_none c hm] at h1
        exact Or.inl h1
      | some r =>
        rw [copyEntry_some c hm, mem_cachePut] at h1
        rcases h1 with ⟨hc, -⟩ | heq
        · exact Or.inl hc
        · right
          rw [heq]
          exact List.mem_cons_self _ _
    · exact Or.inr (List.mem_cons_of_mem _ h1)

theorem cacheMatch_populateFold_keep (t : Cache) (q : String) :
    ∀ (ys : List String) (d : Cache), (∀ y ∈ ys, sameRequest y q = false) →
      cacheMatch (ys.foldl (copyEntry t) d) q = cacheMatch d q := by
  intro ys
  induction ys with
  | nil => intro d _; rfl
  | cons y ys ihy =>
    intro d hn
    have hy : sameRequest y q = false := hn y (List.mem_cons_self _ _)
    rw [List.foldl_cons, ihy _ (fun z hz => hn z (List.mem_cons_of_mem _ hz))]
    cases hmy : cacheMatch t y with
    | none => rw [copyEntry_none d hmy]
    | some ry =>
      rw [copyEntry_some d hmy, cacheMatch_cachePut, hy]
      simp

theorem cacheMatch_populateFold (t : Cache) (q : String) :
    ∀ (requests : List String) (c : Cache),
      (∃ x ∈ requests, sameRequest x q = true) →
      cacheMatch (requests.foldl (copyEntry t) c) q
        = match cacheMatch t q with
          | some response => some response
          | none => cacheMatch c q := by
  intro requests
  induction requests with
  | nil => intro c h; simp at h
  | cons x xs ih =>
    intro c hq
    rw [List.foldl_cons]
    by_cases hxs : ∃ y ∈ xs, sameRequest y q = true
    · rw [ih _ hxs]
      cases hm : cacheMatch t q with
      | some r => rfl
      | none =>
        simp only
        cases hmx : cacheMatch t x with
        | none => rw [copyEntry_none c hmx]
        | some rx =>
          rw [copyEntry_some c hmx, cacheMatch_cachePut]
          by_cases hqx : sameRequest x q = true
          · rw [cacheMatch_congr hqx, hm] at hmx
            cases hmx
          · simp [hqx]
    · have hkeep : ∀ y ∈ xs, sameRequest y q = false := by
        intro y hy
        cases hs : sameRequest y q with
        | false => rfl
        | true => exact absurd ⟨y, hy, hs⟩ hxs
      have hqx : sameRequest x q = true := by
        obtain ⟨y, hy, hs⟩ := hq
        rcases List.mem_cons.mp hy with h | h
        · rw [← h]
          exact hs
        · rw [hkeep y h] at hs
          cases hs
      rw [cacheMatch_populateFold_keep t q xs _ hkeep]
      cases hm : cacheMatch t q with
      | none =>
        have hmx : cacheMatch t x = none := by rw [cacheMatch_congr hqx, hm]
        rw [copyEntry_none c hmx]
      | some r =>
        have hmx : cacheMatch t x = some r := by rw [cacheMatch_congr hqx, hm]
        rw [copyEntry_some c hmx, cacheMatch_cachePut, hqx]
        simp

/-- After the copy loop a staged request matches its staged response. -/
theorem cacheMatch_populateCache {c t : Cache} {q : String} (h : q ∈ cacheKeys t) :
    ∃ r, cacheMatch t q = some r ∧ cacheMatch (populateCache c t) q = some r := by
  obtain ⟨r, hr⟩ := cacheMatch_isSome_of_mem_keys h
  refine ⟨r, hr, ?_⟩
  unfold populateCache
  rw [cacheMatch_populateFold t q _ c ⟨q, h, sameRequest_refl q⟩, hr]

/-- Writing the manifest into a partition that holds nothing else leaves exactly it. -/
theorem cachePut_only {m : Cache} {u : String} (r : Response) (h : ∀ e ∈ m, e.1 = u) :
    cachePut m u r = [(u, r)] := by
  unfold cachePut cacheDelete
  have : m.filter (fun e => !sameRequest e.1 u) = [] := by
    rw [List.filter_eq_nil_iff]
    intro e he
    simp [h e he, sameRequest_refl]
  rw [this]
  rfl

/-! ## The activate handler as a whole -/

theorem bind_run {α β : Type} {m : Async α} {k : α → Async β} {w w1 : World} {a : α}
    (h : m w = (.ok a, w1)) : (m >>= k) w = k a w1 := by
  show (match m w with
    | (.ok a, w1) => k a w1
    | (.error e, w1) => (.error e, w1)) = _
  rw [h]

theorem activate_of_try_ok {origin : String} {w : World}
    (h : (activateTry origin w).1 = .ok ()) : activate origin w = activateTry origin w := by
  unfold activate tryCatch
  rcases hr : activateTry origin w with ⟨r, w1⟩
  rw [hr] at h
  cases r with
  | ok a => rfl
  | error e => cases h

theorem activate_of_try_error {origin : String} {w : World} {e : Exception}
    (h : (activateTry origin w).1 = .error e) :
    activate origin w = activateCatch (activateTry origin w).2 := by
  unfold activate tryCatch
  rcases hr : activateTry origin w with ⟨r, w1⟩
  rw [hr] at h
  cases r with
  | ok a => cases h
  | error e => rfl

/-- The storage after a successful `try` block is the one computed by `activated`. -/
theorem activated_of_try_ok {origin : String} {w : World}
    (h : (activateTry origin w).1 = .ok ()) :
    activated origin w.caches = some (activate origin w).2.caches := by
  rw [activate_of_try_ok h]
  apply activateTry_ok (u := ())
  rcases hr : activateTry origin w with ⟨r, w1⟩
  rw [hr] at h
  cases h
  rfl

theorem activateCatch_ok {w w' : World} {u : Unit} (h : activateCatch w = (.ok u, w')) :
    w'.caches = allDeleted := by
  unfold activateCatch at h
  rw [bind_ok_iff] at h
  obtain ⟨_, w1, h1, h⟩ := h
  rw [bind_ok_iff] at h
  obtain ⟨_, w2, h2, h3⟩ := h
  rw [cachesDelete_ok h3, cachesDelete_ok h2, cachesDelete_ok h1]
  rfl

theorem hostCall_run {c : HostCall} {w : World} (h : ∀ b ∈ w.faults.take 1, b = false) :
    hostCall c w = (.ok (), { w with faults := w.faults.tail, log := w.log ++ [c] }) := by
  rcases w with ⟨s, faults, log⟩
  cases faults with
  | nil => rfl
  | cons b rest =>
    have hb : b = false := h b (by simp)
    subst hb
    rfl

theorem cachesDelete_run {n : CacheName} {w : World} (h : ∀ b ∈ w.faults.take 1, b = false) :
    cachesDelete n w = (.ok (),
      { caches := w.caches.deleted n, faults := w.faults.tail,
        log := w.log ++ [.cachesDelete n] }) := by
  unfold cachesDelete
  rw [bind_run (hostCall_run h)]
  rfl

/-- When its three deletions succeed, the `catch` block deletes the three partitions and
calls the host for nothing else. -/
theorem activateCatch_run {w : World} (h : ∀ b ∈ w.faults.take 3, b = false) :
    activateCatch w = (.ok (),
      { caches := allDeleted, faults := w.faults.drop 3,
        log := w.log ++ [.cachesDelete .CACHE_NAME, .cachesDelete .TEMP,
          .cachesDelete .MANIFEST] }) := by
  have h1 : ∀ b ∈ w.faults.take 1, b = false := fun b hb =>
    h b (List.take_subset_take_left _ (by omega) hb)
  have h2 : ∀ b ∈ w.faults.tail.take 1, b = false := by
    intro b hb
    apply h b
    rcases w with ⟨s, faults, log⟩
    cases faults with
    | nil => simp at hb
    | cons b1 rest =>
      cases rest with
      | nil => simp at hb
      | cons b2 rest2 =>
        simp at hb
        simp [hb]
  have h3 : ∀ b ∈ w.faults.tail.tail.take 1, b = false := by
    intro b hb
    apply h b
    rcases w with ⟨s, faults, log⟩
    cases faults with
    | nil => simp at hb
    | cons b1 rest =>
      cases rest with
      | nil => simp at hb
      | cons b2 rest2 =>
        cases rest2 with
        | nil => simp at hb
        | cons b3 rest3 =>
          simp at hb
          simp [hb]
  unfold activateCatch
  rw [bind_run (cachesDelete_run h1), bind_run (cachesDelete_run h2), cachesDelete_run h3]
  rcases w with ⟨s, faults, log⟩
  rcases faults with _ | ⟨b1, _ | ⟨b2, _ | ⟨b3, rest⟩⟩⟩ <;>
    simp [CacheStorage.deleted, CacheStorage.set, allDeleted]

/-! ## Property reads on the resource table -/

theorem mem_keys_of_lookup {α : Type} {o : List (String × α)} {k : String} {v : α}
    (h : o.lookup k = some v) : k ∈ objectKeys o := by
  unfold objectKeys
  induction o with
  | nil => simp [List.lookup] at h
  | cons e o ih =>
    obtain ⟨k1, v1⟩ := e
    by_cases hk : k = k1
    · subst hk
      simp
    · have hb : (k == k1) = false := by simpa using hk
      simp only [List.lookup, hb] at h
      simp [ih h]

theorem lookup_of_mem_keys {α : Type} {o : List (String × α)} {k : String}
    (h : k ∈ objectKeys o) : ∃ v, o.lookup k = some v := by
  unfold objectKeys at h
  induction o with
  | nil => simp at h
  | cons e o ih =>
    obtain ⟨k1, v1⟩ := e
    by_cases hk : k = k1
    · subst hk
      exact ⟨v1, by simp [List.lookup]⟩
    · have hb : (k == k1) = false := by simpa using hk
      have hmem : k ∈ List.map (fun e => e.1) o := by simpa [hk] using h
      obtain ⟨v, hv⟩ := ih hmem
      exact ⟨v, by simpa [List.lookup, hb] using hv⟩

/-- A truthy read of a table comes from an own key or from an inherited name. -/
theorem truthy_getProperty {o : Table} {key : String}
    (h : truthy (getProperty o key) = true) :
    key ∈ objectKeys o ∨ key ∈ objectPrototypeNames := by
  unfold getProperty at h
  cases hl : o.lookup key with
  | some v => exact Or.inl (mem_keys_of_lookup hl)
  | none =>
    rw [hl] at h
    simp only at h
    by_cases hp : key ∈ objectPrototypeNames
    · exact Or.inr hp
    · rw [if_neg hp] at h
      cases h

theorem truthy_of_not_evicts {old : Table} {key : String} (h : evicts old key = false) :
    truthy (getProperty RESOURCES key) = true := by
  unfold evicts at h
  cases ht : truthy (getProperty RESOURCES key) with
  | true => rfl
  | false => simp [ht] at h


/-- The storage after a successful `try` block, partition by partition. -/
theorem caches_of_try_ok {origin : String} {w : World}
    (h : (activateTry origin w).1 = .ok ()) :
    ∃ base : Cache,
      (activate origin w).2.caches =
        { content := some (populateCache base (w.caches.entries .TEMP))
          temp := none
          manifest := some (cachePut (w.caches.entries .MANIFEST)
            (resolveUrl origin "manifest") manifestResponse) }
      ∧ ((cacheMatch (w.caches.entries .MANIFEST) (resolveUrl origin "manifest") = none
            ∧ base = [])
          ∨ ∃ manifest old,
              cacheMatch (w.caches.entries .MANIFEST) (resolveUrl origin "manifest")
                = some manifest
              ∧ jsonParse manifest.body = some old
              ∧ base = evictCache origin old (w.caches.entries .CACHE_NAME)) := by
  have hact := activated_of_try_ok h
  unfold activated at hact
  cases hm : cacheMatch (w.caches.entries .MANIFEST) (resolveUrl origin "manifest") with
  | none =>
    rw [hm] at hact
    simp only [Option.some.injEq] at hact
    exact ⟨[], hact.symm, Or.inl ⟨rfl, rfl⟩⟩
  | some manifest =>
    rw [hm] at hact
    simp only at hact
    cases hp : jsonParse manifest.body with
    | none =>
      rw [hp] at hact
      cases hact
    | some old =>
      rw [hp] at hact
      simp only [Option.some.injEq] at hact
      exact ⟨_, hact.symm, Or.inr ⟨manifest, old, rfl, hp, rfl⟩⟩

theorem evicts_eq_false_iff {old : Table} {key : String}
    (hkey : key ∉ objectPrototypeNames) :
    evicts old key = false ↔
      ∃ hash, RESOURCES.lookup key = some hash ∧ old.lookup key = some hash := by
  unfold evicts getProperty
  cases hr : RESOURCES.lookup key with
  | none => simp [hkey, truthy]
  | some h =>
    have hne : h ≠ "" := by
      have hmem : (key, h) ∈ RESOURCES := by
        clear hkey
        revert hr
        generalize RESOURCES = tbl
        intro hr
        induction tbl with
        | nil => simp [List.lookup] at hr
        | cons e tbl ih =>
          obtain ⟨k1, v1⟩ := e
          by_cases hk : key = k1
          · subst hk
            simp [List.lookup] at hr
            simp [hr]
          · have hb : (key == k1) = false := by simpa using hk
            simp only [List.lookup, hb] at hr
            exact List.mem_cons_of_mem _ (ih hr)
      have hall : ∀ e ∈ RESOURCES, e.2 ≠ "" := by decide!
      exact hall _ hmem
    cases ho : old.lookup key with
    | none => simp [hkey, truthy, looseNe]
    | some h2 =>
      simp [truthy, looseNe, hne]
      exact eq_comm

/-! ## The fetch handler -/

theorem entries_opened (s : CacheStorage) (n : CacheName) :
    (s.opened n).entries n = s.entries n := by
  rcases s with ⟨c, t, m⟩
  cases n <;> [cases m; cases t; cases c] <;> rfl

theorem opened_of_entries {s : CacheStorage} {url : String} {r : Response}
    (h : cacheMatch (s.entries .CACHE_NAME) url = some r) : s.opened .CACHE_NAME = s := by
  rcases s with ⟨c, t, m⟩
  cases c with
  | none => simp [CacheStorage.entries, CacheStorage.get, cacheMatch, List.lookup] at h
  | some c => rfl

theorem opened_content (s : CacheStorage) :
    s.opened .CACHE_NAME = { s with content := some (s.entries .CACHE_NAME) } := by
  rcases s with ⟨c, t, m⟩
  cases c <;> rfl

theorem update_opened_content (s : CacheStorage) (f : Cache → Cache) :
    (s.opened .CACHE_NAME).update .CACHE_NAME f
      = { s with content := some (f (s.entries .CACHE_NAME)) } := by
  rcases s with ⟨c, t, m⟩
  cases c <;> rfl

theorem substring_data (s : String) (n : Nat) : (substring s n).data = s.data.drop n := rfl

theorem length_eq_data (s : String) : s.length = s.data.length := by
  cases s
  rfl

theorem versionlessKey_of_origin (origin : String) : versionlessKey origin origin = "" := by
  have h : substring origin (origin.length + 1) = "" := by
    apply String.ext
    rw [substring_data, length_eq_data]
    exact List.drop_eq_nil_of_le (by omega)
  unfold versionlessKey
  rw [h]
  rfl

/-- The key of a root request is `'/'`. -/
theorem fetchKey_root {origin url : String}
    (h : url = origin ∨ startsWith url (origin ++ "/#") = true
      ∨ versionlessKey origin url = "") :
    fetchKey origin url = "/" := by
  unfold fetchKey
  simp only
  rw [if_pos]
  rcases h with h | h | h
  · simp [h]
  · simp [h]
  · simp [h]

theorem takeBefore_hash (rest : List Char) :
    takeBefore "?v=".data ('#' :: rest) = '#' :: takeBefore "?v=".data rest := by
  rfl

/-- After `origin + '/#'` the versionless key starts with `#`. -/
theorem versionlessKey_of_hash {origin url : String}
    (h : startsWith url (origin ++ "/#") = true) :
    ∃ rest, (versionlessKey origin url).data = '#' :: rest := by
  unfold startsWith at h
  rw [List.isPrefixOf_iff_prefix] at h
  obtain ⟨t, ht⟩ := h
  have hs : (substring url (origin.length + 1)).data = '#' :: t := by
    have hd : ("/#" : String).data = ['/', '#'] := rfl
    rw [substring_data, ← ht, length_eq_data, String.data_append, hd, List.append_assoc,
      List.drop_append_eq_append_drop]
    have h0 : List.drop (origin.data.length + 1) origin.data = [] :=
      List.drop_eq_nil_of_le (by omega)
    rw [h0]
    simp
  unfold versionlessKey
  simp only
  split
  · refine ⟨takeBefore "?v=".data t, ?_⟩
    unfold splitHead
    simp only [hs]
    exact takeBefore_hash t
  · exact ⟨t, hs⟩

/-- For a request whose versionless key is a key of `RESOURCES`, that key is the key the
handler uses. -/
theorem fetchKey_of_listed {origin url : String}
    (hkey : versionlessKey origin url ∈ objectKeys RESOURCES) :
    fetchKey origin url = versionlessKey origin url := by
  have h1 : url ≠ origin := by
    intro h
    rw [h, versionlessKey_of_origin] at hkey
    revert hkey
    decide!
  have h2 : ¬ startsWith url (origin ++ "/#") = true := by
    intro h
    obtain ⟨rest, hr⟩ := versionlessKey_of_hash h
    have hall : ∀ k ∈ objectKeys RESOURCES, k.data.head? ≠ some '#' := by decide!
    exact hall _ hkey (by rw [hr]; rfl)
  have h3 : versionlessKey origin url ≠ "" := by
    intro h
    rw [h] at hkey
    revert hkey
    decide!
  unfold fetchKey
  simp only
  rw [if_neg]
  simp [h1, h2, h3]

theorem truthy_of_listed {key : String} (h : key ∈ objectKeys RESOURCES) :
    truthy (getProperty RESOURCES key) = true := by
  obtain ⟨v, hv⟩ := lookup_of_mem_keys h
  have hall : ∀ k ∈ objectKeys RESOURCES, truthy (getProperty RESOURCES k) = true := by
    decide!
  exact hall key h

/-! ## Host calls that are not rejected -/

theorem take_succ_false {l : List Bool} {n : Nat} (h : ∀ b ∈ l.take (n + 1), b = false) :
    (∀ b ∈ l.take 1, b = false) ∧ (∀ b ∈ l.tail.take n, b = false) := by
  cases l with
  | nil => simp
  | cons x rest =>
    constructor
    · intro b hb
      apply h b
      simp at hb
      simp [hb]
    · intro b hb
      apply h b
      simp only [List.tail_cons] at hb
      simp [hb]

theorem cachesOpen_run {n : CacheName} {w : World} (h : ∀ b ∈ w.faults.take 1, b = false) :
    cachesOpen n w = (.ok (),
      { caches := w.caches.opened n, faults := w.faults.tail,
        log := w.log ++ [.cachesOpen n] }) := by
  unfold cachesOpen
  rw [bind_run (hostCall_run h)]
  rfl

theorem cacheMatchAsync_run {n : CacheName} {url : String} {w : World}
    (h : ∀ b ∈ w.faults.take 1, b = false) :
    cacheMatchAsync n url w = (.ok (cacheMatch (w.caches.entries n) url),
      { caches := w.caches, faults := w.faults.tail,
        log := w.log ++ [.cacheMatch n url] }) := by
  unfold cacheMatchAsync
  rw [bind_run (hostCall_run h)]
  rfl

theorem cacheKeysAsync_run {n : CacheName} {w : World}
    (h : ∀ b ∈ w.faults.take 1, b = false) :
    cacheKeysAsync n w = (.ok (cacheKeys (w.caches.entries n)),
      { caches := w.caches, faults := w.faults.tail,
        log := w.log ++ [.cacheKeys n] }) := by
  unfold cacheKeysAsync
  rw [bind_run (hostCall_run h)]
  rfl

/-- A `put` nobody awaits, when the host does not reject the call: the response is stored if
the host takes it, and nothing is raised either way. -/
theorem detached_put_run {n : CacheName} {url : String} {r : Response} {w : World}
    (h : ∀ b ∈ w.faults.take 1, b = false) :
    detached (cachePutAsync n url (some r)) w = (.ok (),
      { caches := if storable r then w.caches.update n (fun c => cachePut c url r)
          else w.caches,
        faults := w.faults.tail, log := w.log ++ [.cachePut n url] }) := by
  unfold detached cachePutAsync
  simp only
  rw [bind_run (hostCall_run h)]
  by_cases hs : storable r = true
  · rw [if_pos hs, if_pos hs]
    rfl
  · rw [if_neg hs, if_neg hs]
    rfl

theorem fetch_ok {network : Network} {request : Request} {response : Response} (w : World)
    (h : network request = .ok response) :
    fetch network request w
      = (.ok response, { w with log := w.log ++ [.fetch request.url] }) := by
  unfold fetch
  rw [h]

theorem fetch_error {network : Network} {request : Request} {message : String} (w : World)
    (h : network request = .error message) :
    fetch network request w
      = (.error (.networkError message), { w with log := w.log ++ [.fetch request.url] }) := by
  unfold fetch
  rw [h]

theorem bind_raise {α β : Type} {m : Async α} {k : α → Async β} {w w1 : World}
    {e : Exception} (h : m w = (.error e, w1)) : (m >>= k) w = (.error e, w1) := by
  show (match m w with
    | (.ok a, w1) => k a w1
    | (.error e, w1) => (.error e, w1)) = _
  rw [h]

/-! ## The fetch handler -/

/-- The promise of `onlineFirst` when the network answers and the host rejects nothing. -/
theorem onlineFirst_online {network : Network} {request : Request} {response : Response}
    {w : World} (hn : network request = .ok response)
    (hhost : ∀ b ∈ w.faults.take 2, b = false) :
    onlineFirst network request w = (.ok response,
      { caches :=
          if storable response then
            (w.caches.opened .CACHE_NAME).update .CACHE_NAME
              (fun c => cachePut c request.url response)
          else w.caches.opened .CACHE_NAME,
        faults := w.faults.tail.tail,
        log := w.log ++ [.fetch request.url] ++ [.cachesOpen .CACHE_NAME]
          ++ [.cachePut .CACHE_NAME request.url] }) := by
  obtain ⟨h1, h2⟩ := take_succ_false hhost
  unfold onlineFirst tryCatch
  rw [bind_run (fetch_ok w hn), bind_run (cachesOpen_run (by exact h1)),
    bind_run (detached_put_run (by exact h2))]

/-- The promise of `onlineFirst` when the network fails and the host rejects nothing. -/
theorem onlineFirst_offline {network : Network} {request : Request} {message : String}
    {w : World} (hn : network request = .error message)
    (hhost : ∀ b ∈ w.faults.take 2, b = false) :
    onlineFirst network request w =
      ((match cacheMatch (w.caches.entries .CACHE_NAME) request.url with
        | some cached => .ok cached
        | none => .error (.networkError message)),
      { caches := w.caches.opened .CACHE_NAME,
        faults := w.faults.tail.tail,
        log := w.log ++ [.fetch request.url] ++ [.cachesOpen .CACHE_NAME]
          ++ [.cacheMatch .CACHE_NAME request.url] }) := by
  obtain ⟨h1, h2⟩ := take_succ_false hhost
  unfold onlineFirst tryCatch
  rw [bind_raise (fetch_error w hn)]
  simp only
  rw [bind_run (cachesOpen_run (by exact h1)), bind_run (cacheMatchAsync_run (by exact h2))]
  simp only [entries_opened]
  cases cacheMatch (w.caches.entries .CACHE_NAME) request.url <;> rfl

/-- The handler on a GET request whose key is the root: it responds with `onlineFirst`. -/
theorem fetchHandler_root {origin : String} {network : Network} {request : Request}
    {w : World} (hget : request.method = "GET")
    (hkey : fetchKey origin request.url = "/") :
    fetchHandler origin network request w = respondWith (onlineFirst network request) w := by
  have ht : truthy (getProperty RESOURCES "/") = true := by decide!
  unfold fetchHandler
  simp [hget, hkey, ht]

/-- The handler on a GET request whose key reads truthy in the table and is not the root: it
responds with the cache-first promise. -/
theorem fetchHandler_listed {origin : String} {network : Network} {request : Request}
    {w : World} (hget : request.method = "GET")
    (ht : truthy (getProperty RESOURCES (fetchKey origin request.url)) = true)
    (hroot : fetchKey origin request.url ≠ "/") :
    fetchHandler origin network request w = respondWith (cacheFirst network request) w := by
  unfold fetchHandler
  simp [hget, ht, hroot]

/-- The cache-first promise on a hit, when the host rejects nothing. -/
theorem cacheFirst_hit {network : Network} {request : Request} {cached : Response}
    {w : World} (hm : cacheMatch (w.caches.entries .CACHE_NAME) request.url = some cached)
    (hhost : ∀ b ∈ w.faults.take 2, b = false) :
    cacheFirst network request w = (.ok cached,
      { caches := w.caches, faults := w.faults.tail.tail,
        log := w.log ++ [.cachesOpen .CACHE_NAME]
          ++ [.cacheMatch .CACHE_NAME request.url] }) := by
  obtain ⟨h1, h2⟩ := take_succ_false hhost
  unfold cacheFirst
  rw [bind_run (cachesOpen_run h1), bind_run (cacheMatchAsync_run (by exact h2))]
  simp only [entries_opened, hm, opened_of_entries hm]
  rfl

/-- The cache-first promise on a miss answered by the network, when the host rejects
nothing. -/
theorem cacheFirst_miss_online {network : Network} {request : Request} {response : Response}
    {w : World} (hm : cacheMatch (w.caches.entries .CACHE_NAME) request.url = none)
    (hn : network request = .ok response)
    (hhost : ∀ b ∈ w.faults.take 3, b = false) :
    cacheFirst network request w = (.ok response,
      if response.ok then
        { caches :=
            if storable response then
              (w.caches.opened .CACHE_NAME).update .CACHE_NAME
                (fun c => cachePut c request.url response)
            else w.caches.opened .CACHE_NAME,
          faults := w.faults.tail.tail.tail,
          log := w.log ++ [.cachesOpen .CACHE_NAME] ++ [.cacheMatch .CACHE_NAME request.url]
            ++ [.fetch request.url] ++ [.cachePut .CACHE_NAME request.url] }
      else
        { caches := w.caches.opened .CACHE_NAME,
          faults := w.faults.tail.tail,
          log := w.log ++ [.cachesOpen .CACHE_NAME] ++ [.cacheMatch .CACHE_NAME request.url]
            ++ [.fetch request.url] }) := by
  obtain ⟨h1, h23⟩ := take_succ_false hhost
  obtain ⟨h2, h3⟩ := take_succ_false h23
  unfold cacheFirst
  rw [bind_run (cachesOpen_run h1), bind_run (cacheMatchAsync_run (by exact h2))]
  simp only [entries_opened, hm]
  rw [bind_run (fetch_ok _ hn)]
  by_cases hok : response.ok = true
  · rw [if_pos hok, if_pos hok, bind_run (detached_put_run (by exact h3))]
    rfl
  · rw [if_neg hok, if_neg hok]
    rfl

/-- The cache-first promise on a miss when the network fails and the host rejects nothing. -/
theorem cacheFirst_miss_offline {network : Network} {request : Request} {message : String}
    {w : World} (hm : cacheMatch (w.caches.entries .CACHE_NAME) request.url = none)
    (hn : network request = .error message)
    (hhost : ∀ b ∈ w.faults.take 2, b = false) :
    cacheFirst network request w = (.error (.networkError message),
      { caches := w.caches.opened .CACHE_NAME,
        faults := w.faults.tail.tail,
        log := w.log ++ [.cachesOpen .CACHE_NAME] ++ [.cacheMatch .CACHE_NAME request.url]
          ++ [.fetch request.url] }) := by
  obtain ⟨h1, h2⟩ := take_succ_false hhost
  unfold cacheFirst
  rw [bind_run (cachesOpen_run h1), bind_run (cacheMatchAsync_run (by exact h2))]
  simp only [entries_opened, hm]
  rw [bind_raise (fetch_error _ hn)]

/-! ## `downloadOffline` -/

theorem lookup_append_flag (c d : List (String × Bool)) (q : String) :
    (c ++ d).lookup q = (c.lookup q).orElse (fun _ => d.lookup q) := by
  induction c with
  | nil => rfl
  | cons e c ih =>
    obtain ⟨k, v⟩ := e
    by_cases h : q = k
    · subst h
      simp [List.lookup]
    · have hb : (q == k) = false := by simpa using h
      simp [List.lookup, hb, ih]

theorem map_mark_eq (o : List (String × Bool)) (key : String)
    (h : ∀ e ∈ o, e.2 = true) :
    o.map (fun e => if e.1 = key then (key, true) else e) = o := by
  induction o with
  | nil => rfl
  | cons e o ih =>
    obtain ⟨k, v⟩ := e
    have hv : v = true := h (k, v) (List.mem_cons_self _ _)
    subst hv
    rw [List.map_cons, ih (fun e he => h e (List.mem_cons_of_mem _ he))]
    by_cases hk : k = key
    · subst hk
      simp
    · simp [hk]

/-- The object `currentContent` marks exactly the keys seen so far, `__proto__` apart. -/
theorem currentContent_fold (origin : String) :
    ∀ (requests : List String) (acc : List (String × Bool)) (seen : List String),
      (∀ e ∈ acc, e.2 = true) →
      (∀ k, k ≠ "__proto__" → acc.lookup k = if k ∈ seen then some true else none) →
      ∀ k, k ≠ "__proto__" →
        (requests.foldl
            (fun current request => setProperty current (requestKey origin request) true)
            acc).lookup k
          = if k ∈ seen ++ requests.map (requestKey origin) then some true else none := by
  intro requests
  induction requests with
  | nil =>
    intro acc seen _ hacc k hk
    simpa using hacc k hk
  | cons x xs ih =>
    intro acc seen hall hacc k hk
    rw [List.foldl_cons]
    have hstep : ∀ k, k ≠ "__proto__" →
        (setProperty acc (requestKey origin x) true).lookup k
          = if k ∈ seen ++ [requestKey origin x] then some true else none := by
      intro k hk
      unfold setProperty
      by_cases hp : requestKey origin x = "__proto__"
      · rw [if_pos hp, hacc k hk]
        have : k ≠ requestKey origin x := by
          rw [hp]
          exact hk
        simp [this]
      · rw [if_neg hp]
        by_cases hs : (acc.lookup (requestKey origin x)).isSome = true
        · rw [if_pos hs, map_mark_eq acc _ hall, hacc k hk]
          have hin : requestKey origin x ∈ seen := by
            rw [hacc _ hp] at hs
            by_contra hc
            simp [hc] at hs
          by_cases hkx : k = requestKey origin x
          · subst hkx
            simp [hin]
          · simp [hkx]
        · rw [if_neg hs, lookup_append_flag, hacc k hk]
          by_cases hks : k ∈ seen
          · simp [hks]
          · by_cases hkx : k = requestKey origin x
            · subst hkx
              simp [hks, List.lookup]
            · have hb : (k == requestKey origin x) = false := by simpa using hkx
              simp [hks, hkx, List.lookup, hb]
    have hall2 : ∀ e ∈ setProperty acc (requestKey origin x) true, e.2 = true := by
      intro e he
      unfold setProperty at he
      by_cases hp : requestKey origin x = "__proto__"
      · rw [if_pos hp] at he
        exact hall e he
      · rw [if_neg hp] at he
        by_cases hs : (acc.lookup (requestKey origin x)).isSome = true
        · rw [if_pos hs, map_mark_eq acc _ hall] at he
          exact hall e he
        · rw [if_neg hs] at he
          rcases List.mem_append.mp he with h | h
          · exact hall e h
          · simp at h
            rw [h]
    have := ih _ (seen ++ [requestKey origin x]) hall2 hstep k hk
    rw [this]
    simp [List.append_assoc]

/-- A key that is no inherited name reads truthy in `currentContent` exactly when a cached
request has it. -/
theorem truthyFlag_currentContent {origin : String} {requests : List String} {k : String}
    (hk : k ∉ objectPrototypeNames) :
    truthyFlag (getProperty (currentContent origin requests) k)
      = decide (k ∈ requests.map (requestKey origin)) := by
  have hproto : k ≠ "__proto__" := by
    intro h
    apply hk
    rw [h]
    decide!
  have hl := currentContent_fold origin requests [] [] (by simp) (by simp) k hproto
  unfold getProperty currentContent
  rw [hl]
  by_cases hin : k ∈ requests.map (requestKey origin)
  · simp [hin, truthyFlag]
  · simp [hin, hk, truthyFlag]

theorem foldl_push_filter {α : Type} (p : α → Bool) :
    ∀ (l acc : List α),
      l.foldl (fun acc x => if p x then acc ++ [x] else acc) acc = acc ++ l.filter p := by
  intro l
  induction l with
  | nil => intro acc; simp
  | cons x xs ih =>
    intro acc
    rw [List.foldl_cons, ih]
    by_cases hp : p x = true
    · simp [hp]
    · simp [hp]

/-- The list `resources` holds the keys of `RESOURCES` that no cached request has, in the
order of the table. -/
theorem missingResources_eq (origin : String) (requests : List String) :
    missingResources (currentContent origin requests)
      = (objectKeys RESOURCES).filter
          (fun k => decide (k ∉ requests.map (requestKey origin))) := by
  unfold missingResources
  have h := foldl_push_filter
    (fun k => !truthyFlag (getProperty (currentContent origin requests) k))
    (objectKeys RESOURCES) []
  simp only [List.nil_append] at h
  rw [h]
  apply List.filter_congr
  intro k hk
  have hall : ∀ k ∈ objectKeys RESOURCES, k ∉ objectPrototypeNames := by decide!
  rw [truthyFlag_currentContent (hall k hk)]
  by_cases hin : k ∈ requests.map (requestKey origin)
  · simp only [hin, not_true_eq_false, decide_True, decide_False, Bool.not_true]
  · simp only [hin, not_false_eq_true, decide_True, decide_False, Bool.not_false]

theorem requestKey_resolveUrl (origin : String) {k : String} (hk : k ≠ "") :
    requestKey origin (resolveUrl origin k) = k := by
  unfold requestKey resolveUrl
  by_cases hroot : k = "/"
  · subst hroot
    rw [if_pos rfl]
    have h : substring (origin ++ "/") (origin.length + 1) = "" := by
      apply String.ext
      rw [substring_data, length_eq_data, String.data_append]
      exact List.drop_eq_nil_of_le (by simp [show ("/" : String).data = ['/'] from rfl])
    simp only [h]
    decide
  · rw [if_neg hroot]
    have h : substring (origin ++ "/" ++ k) (origin.length + 1) = k := by
      apply String.ext
      rw [substring_data, length_eq_data, String.data_append, String.data_append,
        show ("/" : String).data = ['/'] from rfl]
      have hlen : origin.data.length + 1 = (origin.data ++ ['/']).length := by simp
      rw [hlen, List.drop_left]
    simp only [h]
    have hb : (k == "") = false := by simpa using hk
    simp [hb]

/-! ### Fragments -/

theorem takeBefore_of_not_mem {c : Char} :
    ∀ {l : List Char}, c ∉ l → takeBefore [c] l = l := by
  intro l
  induction l with
  | nil => intro _; rfl
  | cons x xs ih =>
    intro h
    rw [List.mem_cons, not_or] at h
    have hx : ([c].isPrefixOf (x :: xs)) = false := by
      simp [List.isPrefixOf, h.1]
    unfold takeBefore
    rw [hx]
    simp [ih h.2]

theorem takeBefore_cases {c : Char} :
    ∀ (l : List Char), takeBefore [c] l = l ∨ ∃ rest, l = takeBefore [c] l ++ c :: rest := by
  intro l
  induction l with
  | nil => exact Or.inl rfl
  | cons x xs ih =>
    by_cases hx : c = x
    · subst hx
      right
      refine ⟨xs, ?_⟩
      have : ([c].isPrefixOf (c :: xs)) = true := by simp [List.isPrefixOf]
      unfold takeBefore
      rw [this]
      simp
    · have hp : ([c].isPrefixOf (x :: xs)) = false := by simp [List.isPrefixOf, hx]
      have hstep : takeBefore [c] (x :: xs) = x :: takeBefore [c] xs := by
        rw [takeBefore, hp]
        simp
      rw [hstep]
      rcases ih with h | ⟨rest, h⟩
      · left
        rw [h]
      · right
        exact ⟨rest, by rw [List.cons_append, ← h]⟩

theorem withoutFragment_of_no_hash {u : String} (h : '#' ∉ u.data) : withoutFragment u = u := by
  unfold withoutFragment
  rw [takeBefore_of_not_mem h]

theorem resolveUrl_data (origin k : String) :
    (resolveUrl origin k).data = origin.data ++ '/' :: (if k = "/" then [] else k.data) := by
  unfold resolveUrl
  by_cases hk : k = "/"
  · rw [if_pos hk, if_pos hk]
    rfl
  · rw [if_neg hk, if_neg hk, String.data_append, String.data_append]
    simp [show ("/" : String).data = ['/'] from rfl]

/-- A URL the worker builds from a key without `#` has no fragment. -/
theorem resolveUrl_no_hash {origin k : String} (ho : '#' ∉ origin.data) (hk : '#' ∉ k.data) :
    '#' ∉ (resolveUrl origin k).data := by
  rw [resolveUrl_data]
  intro h
  rw [List.mem_append, List.mem_cons] at h
  rcases h with h | h | h
  · exact ho h
  · exact absurd h (by decide)
  · by_cases hr : k = "/"
    · rw [if_pos hr] at h
      cases h
    · rw [if_neg hr] at h
      exact hk h

theorem length_resolveUrl (origin k : String) :
    origin.length + 1 ≤ (resolveUrl origin k).data.length := by
  rw [resolveUrl_data, length_eq_data]
  simp

/-- A cached request that the host takes for the same as a request built from the key `k` has
the key `k`, or a key with a `#`. -/
theorem requestKey_of_sameRequest {origin k u : String} (ho : '#' ∉ origin.data)
    (hk : '#' ∉ k.data) (hne : k ≠ "")
    (h : sameRequest u (resolveUrl origin k) = true) :
    requestKey origin u = k ∨ '#' ∈ (requestKey origin u).data := by
  rw [sameRequest_iff, withoutFragment_of_no_hash (resolveUrl_no_hash ho hk)] at h
  have hd : takeBefore ['#'] u.data = (resolveUrl origin k).data := by
    rw [← h]
    rfl
  rcases takeBefore_cases (c := '#') u.data with hc | ⟨rest, hc⟩
  · left
    have : u = resolveUrl origin k := by
      apply String.ext
      rw [← hc, hd]
    rw [this]
    exact requestKey_resolveUrl origin hne
  · right
    rw [hd] at hc
    have hs : (substring u (origin.length + 1)).data
        = (resolveUrl origin k).data.drop (origin.length + 1) ++ '#' :: rest := by
      rw [substring_data, hc, List.drop_append_of_le_length (length_resolveUrl origin k)]
    have hne2 : substring u (origin.length + 1) ≠ "" := by
      intro h0
      rw [h0] at hs
      have := congrArg List.length hs
      simp at this
      omega
    unfold requestKey
    simp only
    have hb : (substring u (origin.length + 1) == "") = false := by simpa using hne2
    rw [hb]
    simp only [Bool.false_eq_true, if_false]
    rw [hs]
    simp

/-! ### The call `addAll` -/

theorem allDistinct_iff {l : List String} : allDistinct l = true ↔ l.Nodup := by
  induction l with
  | nil => simp [allDistinct]
  | cons x xs ih =>
    unfold allDistinct
    rw [Bool.and_eq_true, ih, List.nodup_cons]
    simp

/-- Storing entries no two of which are the same request keeps the former entries that none
of them matches, and appends them. -/
theorem putAll_distinct :
    ∀ (entries : List (String × Response)) (c : Cache),
      (entries.map (fun e => withoutFragment e.1)).Nodup →
      putAll c entries
        = c.filter (fun e => entries.all (fun a => !sameRequest e.1 a.1)) ++ entries := by
  intro entries
  induction entries with
  | nil => intro c _; simp [putAll]
  | cons a rest ih =>
    intro c hnodup
    rw [List.map_cons, List.nodup_cons] at hnodup
    have hstep : putAll c (a :: rest) = putAll (cachePut c a.1 a.2) rest := rfl
    rw [hstep, ih _ hnodup.2]
    unfold cachePut cacheDelete
    rw [List.filter_append, List.filter_filter]
    have ha : [(a.1, a.2)].filter (fun e => rest.all (fun b => !sameRequest e.1 b.1)) = [a] := by
      rw [List.filter_cons_of_pos]
      · rfl
      · rw [List.all_eq_true]
        intro b hb
        have : sameRequest a.1 b.1 = false := by
          rw [sameRequest_false_iff]
          intro heq
          apply hnodup.1
          rw [heq]
          exact List.mem_map.mpr ⟨b, hb, rfl⟩
        simp [this]
    rw [ha, List.append_assoc]
    congr 1
    apply List.filter_congr
    intro e _
    simp [Bool.and_comm]

theorem fetchAll_some (origin : String) (network : Network) :
    ∀ (paths : List String) (entries : List (String × Response)),
      fetchAll origin network paths = some entries →
      entries.map (fun e => e.1) = paths.map (resolveUrl origin)
        ∧ ∀ a ∈ entries, network { method := "GET", url := a.1 } = .ok a.2
            ∧ a.2.ok = true ∧ storable a.2 = true := by
  intro paths
  induction paths with
  | nil =>
    intro entries h
    cases h
    simp
  | cons p ps ih =>
    intro entries h
    unfold fetchAll at h
    cases hn : network { method := "GET", url := resolveUrl origin p } with
    | error e =>
      rw [hn] at h
      cases h
    | ok response =>
      rw [hn] at h
      simp only at h
      by_cases hok : (response.ok && storable response) = true
      · rw [if_pos hok] at h
        cases hrest : fetchAll origin network ps with
        | none =>
          rw [hrest] at h
          cases h
        | some es =>
          rw [hrest] at h
          cases h
          obtain ⟨h1, h2⟩ := ih es hrest
          rw [Bool.and_eq_true] at hok
          refine ⟨by simp [h1], ?_⟩
          intro a ha
          rcases List.mem_cons.mp ha with ha | ha
          · subst ha
            exact ⟨hn, hok.1, hok.2⟩
          · exact h2 a ha
      · rw [if_neg hok] at h
        cases h

theorem fetchAll_total (origin : String) (network : Network) :
    ∀ (paths : List String),
      (∀ k ∈ paths, ∃ r, network { method := "GET", url := resolveUrl origin k } = .ok r
        ∧ r.ok = true ∧ storable r = true) →
      ∃ entries, fetchAll origin network paths = some entries := by
  intro paths
  induction paths with
  | nil => intro _; exact ⟨[], rfl⟩
  | cons p ps ih =>
    intro h
    obtain ⟨r, hr, hok, hs⟩ := h p (List.mem_cons_self _ _)
    obtain ⟨es, hes⟩ := ih (fun k hk => h k (List.mem_cons_of_mem _ hk))
    refine ⟨(resolveUrl origin p, r) :: es, ?_⟩
    unfold fetchAll
    rw [hr]
    simp only [hok, hs, Bool.and_self, if_true, hes]

/-- The call `addAll` when the host does not reject it out of hand: a `TypeError` when a
fetch fails or brings a response the cache cannot take, an `InvalidStateError` when two
requests are the same, and the responses stored otherwise. -/
theorem cacheAddAllAsync_run {origin : String} {network : Network} {n : CacheName}
    {paths : List String} {w : World} (h : ∀ b ∈ w.faults.take 1, b = false) :
    (fetchAll origin network paths = none
        ∧ cacheAddAllAsync origin network n paths w = (.error .typeError,
            { caches := w.caches, faults := w.faults.tail,
              log := w.log ++ [.cacheAddAll n paths] }))
      ∨ (∃ entries, fetchAll origin network paths = some entries
          ∧ ¬ (entries.map (fun e => withoutFragment e.1)).Nodup
          ∧ cacheAddAllAsync origin network n paths w = (.error .invalidState,
              { caches := w.caches, faults := w.faults.tail,
                log := w.log ++ [.cacheAddAll n paths] }))
      ∨ (∃ entries, fetchAll origin network paths = some entries
          ∧ (entries.map (fun e => withoutFragment e.1)).Nodup
          ∧ cacheAddAllAsync origin network n paths w = (.ok (),
              { caches := w.caches.update n (fun c => putAll c entries),
                faults := w.faults.tail,
                log := w.log ++ [.cacheAddAll n paths] })) := by
  unfold cacheAddAllAsync
  rw [bind_run (hostCall_run h)]
  cases hf : fetchAll origin network paths with
  | none => exact Or.inl ⟨rfl, rfl⟩
  | some entries =>
    right
    by_cases hd : allDistinct (entries.map (fun e => withoutFragment e.1)) = true
    · right
      refine ⟨entries, rfl, allDistinct_iff.mp hd, ?_⟩
      simp only [hd, if_true]
      rfl
    · left
      refine ⟨entries, rfl, fun hn => hd (allDistinct_iff.mpr hn), ?_⟩
      simp only [hd, if_false]
      rfl

/-- The function `downloadOffline` when the host rejects none of its three calls: it opens the
content cache, lists its requests and passes `addAll` the keys of `RESOURCES` that none of
them has; `addAll` stores what it fetched, or fails and stores nothing. -/
theorem downloadOffline_run {origin : String} {network : Network} {w : World}
    (h : ∀ b ∈ w.faults.take 3, b = false) :
    (downloadOffline origin network w = (.ok (), (downloadOffline origin network w).2)
        ∧ ∃ entries,
          fetchAll origin network
              ((objectKeys RESOURCES).filter
                (fun k => decide (k ∉ (cacheKeys (w.caches.entries .CACHE_NAME)).map
                  (requestKey origin)))) = some entries
            ∧ (entries.map (fun e => withoutFragment e.1)).Nodup
            ∧ (downloadOffline origin network w).2.caches
              = { w.caches with
                  content := some (putAll (w.caches.entries .CACHE_NAME) entries) })
      ∨ ((∃ e, (downloadOffline origin network w).1 = .error e)
        ∧ (fetchAll origin network
              ((objectKeys RESOURCES).filter
                (fun k => decide (k ∉ (cacheKeys (w.caches.entries .CACHE_NAME)).map
                  (requestKey origin)))) = none
            ∨ ∃ entries, fetchAll origin network
              ((objectKeys RESOURCES).filter
                (fun k => decide (k ∉ (cacheKeys (w.caches.entries .CACHE_NAME)).map
                  (requestKey origin)))) = some entries
              ∧ ¬ (entries.map (fun e => withoutFragment e.1)).Nodup)
        ∧ (downloadOffline origin network w).2.caches = w.caches.opened .CACHE_NAME) := by
  obtain ⟨h1, h23⟩ := take_succ_false h
  obtain ⟨h2, h3⟩ := take_succ_false h23
  unfold downloadOffline
  rw [bind_run (cachesOpen_run h1), bind_run (cacheKeysAsync_run (by exact h2))]
  simp only [entries_opened, missingResources_eq]
  rcases @cacheAddAllAsync_run origin network .CACHE_NAME
      ((objectKeys RESOURCES).filter
        (fun k => decide (k ∉ (cacheKeys (w.caches.entries .CACHE_NAME)).map
          (requestKey origin))))
      { caches := w.caches.opened .CACHE_NAME, faults := w.faults.tail.tail,
        log := w.log ++ [.cachesOpen .CACHE_NAME] ++ [.cacheKeys .CACHE_NAME] }
      (by exact h3) with ⟨hf, hr⟩ | ⟨entries, hf, hd, hr⟩ | ⟨entries, hf, hd, hr⟩
  · right
    rw [hr]
    exact ⟨⟨_, rfl⟩, Or.inl hf, rfl⟩
  · right
    rw [hr]
    exact ⟨⟨_, rfl⟩, Or.inr ⟨entries, hf, hd⟩, rfl⟩
  · left
    rw [hr]
    exact ⟨rfl, entries, hf, hd, update_opened_content _ _⟩

/-- The calls of `downloadOffline` when the host rejects none of them. -/
theorem downloadOffline_log {origin : String} {network : Network} {w : World}
    (h : ∀ b ∈ w.faults.take 3, b = false) :
    (downloadOffline origin network w).2.log
      = w.log ++ [.cachesOpen .CACHE_NAME, .cacheKeys .CACHE_NAME,
          .cacheAddAll .CACHE_NAME
            ((objectKeys RESOURCES).filter
              (fun k => decide (k ∉ (cacheKeys (w.caches.entries .CACHE_NAME)).map
                (requestKey origin))))] := by
  obtain ⟨h1, h23⟩ := take_succ_false h
  obtain ⟨h2, h3⟩ := take_succ_false h23
  unfold downloadOffline
  rw [bind_run (cachesOpen_run h1), bind_run (cacheKeysAsync_run (by exact h2))]
  simp only [entries_opened, missingResources_eq]
  rcases @cacheAddAllAsync_run origin network .CACHE_NAME
      ((objectKeys RESOURCES).filter
        (fun k => decide (k ∉ (cacheKeys (w.caches.entries .CACHE_NAME)).map
          (requestKey origin))))
      { caches := w.caches.opened .CACHE_NAME, faults := w.faults.tail.tail,
        log := w.log ++ [.cachesOpen .CACHE_NAME] ++ [.cacheKeys .CACHE_NAME] }
      (by exact h3) with ⟨_, hr⟩ | ⟨_, _, _, hr⟩ | ⟨_, _, _, hr⟩ <;>
  · rw [hr]
    simp

theorem all_map_eq {α β : Type} (l : List α) (f : α → β) (p : β → Bool) :
    (l.map f).all p = l.all (fun a => p (f a)) := by
  induction l with
  | nil => rfl
  | cons x xs ih => simp [ih]

/-- No key of the table has a `#`. -/
theorem RESOURCES_no_hash : ∀ k ∈ objectKeys RESOURCES, '#' ∉ k.data := by
  decide!

/-- The requests `addAll` builds from distinct keys of the table are distinct requests. -/
theorem resolved_nodup {origin : String} (ho : '#' ∉ origin.data) {paths : List String}
    (hsub : ∀ k ∈ paths, k ∈ objectKeys RESOURCES) (hnodup : paths.Nodup)
    {entries : List (String × Response)}
    (hkeys : entries.map (fun e => e.1) = paths.map (resolveUrl origin)) :
    (entries.map (fun e => withoutFragment e.1)).Nodup := by
  have hne : ∀ k ∈ objectKeys RESOURCES, k ≠ "" := by decide!
  have h1 : entries.map (fun e => withoutFragment e.1)
      = (entries.map (fun e => e.1)).map withoutFragment := by
    rw [List.map_map]
    rfl
  rw [h1, hkeys, List.map_map]
  apply List.Nodup.map_on _ hnodup
  intro a ha b hb hab
  simp only [Function.comp] at hab
  rw [withoutFragment_of_no_hash (resolveUrl_no_hash ho (RESOURCES_no_hash a (hsub a ha))),
    withoutFragment_of_no_hash (resolveUrl_no_hash ho (RESOURCES_no_hash b (hsub b hb)))] at hab
  rw [← requestKey_resolveUrl origin (hne a (hsub a ha)),
    ← requestKey_resolveUrl origin (hne b (hsub b hb)), hab]

/-- An entry whose key has no `#` is matched by none of the requests `addAll` builds from
keys of the table that no entry has. -/
theorem kept_of_key_without_hash {origin : String} (ho : '#' ∉ origin.data) {c : Cache}
    {e : String × Response} (he : e ∈ c) (hkey : '#' ∉ (requestKey origin e.1).data) :
    (uncachedKeys origin c).all (fun k => !sameRequest e.1 (resolveUrl origin k)) = true := by
  have hne : ∀ k ∈ objectKeys RESOURCES, k ≠ "" := by decide!
  rw [List.all_eq_true]
  intro k hk
  unfold uncachedKeys at hk
  rw [List.mem_filter] at hk
  have hnot : k ∉ (cacheKeys c).map (requestKey origin) := by simpa using hk.2
  cases hs : sameRequest e.1 (resolveUrl origin k) with
  | false => rfl
  | true =>
    exfalso
    rcases requestKey_of_sameRequest ho (RESOURCES_no_hash k hk.1) (hne k hk.1) hs with h | h
    · apply hnot
      rw [← h]
      exact List.mem_map.mpr ⟨e.1, List.mem_map.mpr ⟨e, he, rfl⟩, rfl⟩
    · exact hkey h

/-! ## Scope of the findings -/

/-- When the temporary cache stages shell files only, as the install handler leaves it, every
entry a completed activation leaves in the content cache has a key of `RESOURCES` or an
inherited name: the files of `CORE` are all listed. -/
theorem content_keys_when_shell_staged (origin : String) (w : World)
    (hdone : (activate origin w).1 = .ok ())
    (hshell : ∀ u ∈ cacheKeys (w.caches.entries .TEMP), ∃ k ∈ CORE, u = resolveUrl origin k) :
    ∀ c, (activate origin w).2.caches.content = some c → ∀ e ∈ c,
      requestKey origin e.1 ∈ objectKeys RESOURCES
        ∨ requestKey origin e.1 ∈ objectPrototypeNames := by
  intro c hc e he
  have hstaged : e.1 ∈ cacheKeys (w.caches.entries .TEMP) →
      requestKey origin e.1 ∈ objectKeys RESOURCES := by
    intro h
    obtain ⟨k, hk, hu⟩ := hshell _ h
    have hcore : ∀ k ∈ CORE, k ≠ "" ∧ k ∈ objectKeys RESOURCES := by decide!
    rw [hu, requestKey_resolveUrl origin (hcore k hk).1]
    exact (hcore k hk).2
  rcases htry : (activateTry origin w).1 with err | u
  · rw [activate_of_try_error htry] at hdone hc
    have hcatch : activateCatch (activateTry origin w).2
        = (.ok (), (activateCatch (activateTry origin w).2).2) := by
      rcases hr : activateCatch (activateTry origin w).2 with ⟨r, w1⟩
      rw [hr] at hdone
      cases hdone
      rfl
    rw [activateCatch_ok hcatch] at hc
    cases hc
  · obtain ⟨base, hs, hbase⟩ := caches_of_try_ok htry
    rw [hs] at hc
    simp only [Option.some.injEq] at hc
    subst hc
    rcases mem_populateFold_cases _ e _ _ he with h | h
    · rcases hbase with ⟨-, hb⟩ | ⟨manifest, old, -, -, hb⟩
      · subst hb
        cases h
      · subst hb
        exact truthy_getProperty (truthy_of_not_evicts (evicts_false_of_mem_evictCache h).2)
    · exact Or.inl (hstaged h)


/-- Among the entries whose request no staged request matches and whose key is no inherited
name, a successful activation keeps exactly those whose key the old manifest and `RESOURCES`
give the same hash; with no old manifest it keeps none. The content cache is taken as the
host keeps it: with no two entries for the same request. -/
theorem retained_iff_same_hash (origin : String) (w : World)
    (hok : (activateTry origin w).1 = .ok ()) (e : String × Response)
    (he : e ∈ w.caches.entries .CACHE_NAME)
    (hone : ∀ x ∈ w.caches.entries .CACHE_NAME, sameRequest e.1 x.1 = true → x.1 = e.1)
    (hstaged : ∀ x ∈ cacheKeys (w.caches.entries .TEMP), sameRequest e.1 x = false)
    (hkey : requestKey origin e.1 ∉ objectPrototypeNames) :
    (∃ c, (activate origin w).2.caches.content = some c ∧ e ∈ c) ↔
      ∃ manifest old hash,
        cacheMatch (w.caches.entries .MANIFEST) (resolveUrl origin "manifest") = some manifest
          ∧ jsonParse manifest.body = some old
          ∧ RESOURCES.lookup (requestKey origin e.1) = some hash
          ∧ old.lookup (requestKey origin e.1) = some hash := by
  obtain ⟨base, hs, hbase⟩ := caches_of_try_ok hok
  rw [hs]
  simp only [Option.some.injEq, exists_eq_left']
  rw [mem_populateCache hstaged]
  rcases hbase with ⟨hm, hb⟩ | ⟨manifest, old, hm, hp, hb⟩
  · subst hb
    rw [hm]
    simp
  · subst hb
    rw [mem_evictCache hone, evicts_eq_false_iff hkey, hm]
    constructor
    · rintro ⟨-, hash, h1, h2⟩
      exact ⟨manifest, old, hash, rfl, hp, h1, h2⟩
    · rintro ⟨m2, old2, hash, h0, hp2, h1, h2⟩
      cases h0
      rw [hp] at hp2
      cases hp2
      exact ⟨he, hash, h1, h2⟩

/-- The handler leaves to the browser every request that is not a GET, and every GET request
whose key is neither a key of `RESOURCES` nor an inherited name: it responds to nothing,
calls the host for nothing and leaves the storage as it is. -/
theorem fetchHandler_passes (origin : String) (network : Network) (request : Request)
    (w : World)
    (h : request.method ≠ "GET"
      ∨ (fetchKey origin request.url ∉ objectKeys RESOURCES
        ∧ fetchKey origin request.url ∉ objectPrototypeNames)) :
    fetchHandler origin network request w = (none, w) := by
  unfold fetchHandler
  by_cases hget : request.method = "GET"
  · rcases h with h | ⟨h1, h2⟩
    · exact absurd hget h
    · have ht : truthy (getProperty RESOURCES (fetchKey origin request.url)) = false := by
        cases htr : truthy (getProperty RESOURCES (fetchKey origin request.url)) with
        | false => rfl
        | true =>
          rcases truthy_getProperty htr with h | h
          · exact absurd h h1
          · exact absurd h h2
      simp [hget, ht]
  · have hb : (request.method != "GET") = true := by simpa using hget
    simp [hb]

/-! ## Activation on a host that rejects nothing -/

theorem cachesOpen_quiet (n : CacheName) (s : CacheStorage) (log : List HostCall) :
    cachesOpen n ⟨s, [], log⟩ = (.ok (), ⟨s.opened n, [], log ++ [.cachesOpen n]⟩) := rfl

theorem cachesDelete_quiet (n : CacheName) (s : CacheStorage) (log : List HostCall) :
    cachesDelete n ⟨s, [], log⟩ = (.ok (), ⟨s.deleted n, [], log ++ [.cachesDelete n]⟩) := rfl

theorem cacheMatchAsync_quiet (n : CacheName) (url : String) (s : CacheStorage)
    (log : List HostCall) :
    cacheMatchAsync n url ⟨s, [], log⟩
      = (.ok (cacheMatch (s.entries n) url), ⟨s, [], log ++ [.cacheMatch n url]⟩) := rfl

theorem cacheKeysAsync_quiet (n : CacheName) (s : CacheStorage) (log : List HostCall) :
    cacheKeysAsync n ⟨s, [], log⟩
      = (.ok (cacheKeys (s.entries n)), ⟨s, [], log ++ [.cacheKeys n]⟩) := rfl

theorem cachePutAsync_quiet (n : CacheName) (url : String) {r : Response} (s : CacheStorage)
    (log : List HostCall) (hr : storable r = true) :
    cachePutAsync n url (some r) ⟨s, [], log⟩
      = (.ok (), ⟨s.update n (fun c => cachePut c url r), [], log ++ [.cachePut n url]⟩) := by
  unfold cachePutAsync
  simp only
  rw [bind_run (hostCall_run (by simp)), if_pos hr]
  rfl

/-- A response the cache gives back is that of one of its entries. -/
theorem cacheMatch_some_mem {c : Cache} {q : String} {r : Response}
    (h : cacheMatch c q = some r) : ∃ e ∈ c, e.2 = r := by
  induction c with
  | nil => cases h
  | cons x xs ih =>
    rw [cacheMatch_cons] at h
    by_cases hx : sameRequest x.1 q = true
    · rw [if_pos hx] at h
      cases h
      exact ⟨x, List.mem_cons_self _ _, rfl⟩
    · rw [if_neg hx] at h
      obtain ⟨e, he, her⟩ := ih h
      exact ⟨e, List.mem_cons_of_mem _ he, her⟩

theorem cacheDeleteAsync_quiet (n : CacheName) (url : String) (s : CacheStorage)
    (log : List HostCall) :
    cacheDeleteAsync n url ⟨s, [], log⟩
      = (.ok (), ⟨s.update n (fun c => cacheDelete c url), [], log ++ [.cacheDelete n url]⟩) :=
  rfl

theorem populateLoop_quiet (t : Cache) (m : Option Cache) :
    ∀ (requests : List String) (c : Cache) (log : List HostCall),
      (∀ request ∈ requests, ∃ r, cacheMatch t request = some r ∧ storable r = true) →
      ∃ log2, forEach requests populateStep ⟨⟨some c, some t, m⟩, [], log⟩
        = (.ok (), ⟨⟨some (requests.foldl (copyEntry t) c), some t, m⟩, [], log2⟩) := by
  intro requests
  induction requests with
  | nil => intro c log _; exact ⟨log, rfl⟩
  | cons x xs ih =>
    intro c log h
    obtain ⟨r, hr, hst⟩ := h x (List.mem_cons_self _ _)
    obtain ⟨log2, h2⟩ := ih (cachePut c x r) (log ++ [.cacheMatch .TEMP x]
      ++ [.cachePut .CACHE_NAME x]) (fun q hq => h q (List.mem_cons_of_mem _ hq))
    refine ⟨log2, ?_⟩
    have hstep : populateStep x ⟨⟨some c, some t, m⟩, [], log⟩
        = (.ok (), ⟨⟨some (cachePut c x r), some t, m⟩, [],
            log ++ [.cacheMatch .TEMP x] ++ [.cachePut .CACHE_NAME x]⟩) := by
      unfold populateStep
      rw [bind_run (cacheMatchAsync_quiet _ _ _ _)]
      have : cacheMatch ((⟨some c, some t, m⟩ : CacheStorage).entries .TEMP) x = some r := hr
      rw [this, cachePutAsync_quiet _ _ _ _ hst]
      rfl
    unfold forEach
    rw [bind_run hstep, h2, List.foldl_cons, copyEntry_some c hr]

theorem populate_quiet (c t : Cache) (m : Option Cache) (log : List HostCall)
    (hst : ∀ e ∈ t, storable e.2 = true) :
    ∃ log2, populate ⟨⟨some c, some t, m⟩, [], log⟩
      = (.ok (), ⟨⟨some (populateCache c t), some t, m⟩, [], log2⟩) := by
  obtain ⟨log2, h2⟩ := populateLoop_quiet t m (cacheKeys t) c (log ++ [.cacheKeys .TEMP])
    (fun q hq => by
      obtain ⟨r, hr⟩ := cacheMatch_isSome_of_mem_keys hq
      obtain ⟨e, he, her⟩ := cacheMatch_some_mem hr
      exact ⟨r, hr, her ▸ hst e he⟩)
  refine ⟨log2, ?_⟩
  unfold populate
  rw [bind_run (cacheKeysAsync_quiet _ _ _)]
  exact h2

theorem evictLoop_quiet (origin : String) (old : Table) (t m : Option Cache) :
    ∀ (requests : List String) (c : Cache) (log : List HostCall),
      ∃ log2, forEach requests (evictStep origin old) ⟨⟨some c, t, m⟩, [], log⟩
        = (.ok (), ⟨⟨some (requests.foldl (evictEntry origin old) c), t, m⟩, [], log2⟩) := by
  intro requests
  induction requests with
  | nil => intro c log; exact ⟨log, rfl⟩
  | cons x xs ih =>
    intro c log
    by_cases he : evicts old (requestKey origin x) = true
    · obtain ⟨log2, h2⟩ := ih (cacheDelete c x) (log ++ [.cacheDelete .CACHE_NAME x])
      refine ⟨log2, ?_⟩
      have hstep : evictStep origin old x ⟨⟨some c, t, m⟩, [], log⟩
          = (.ok (), ⟨⟨some (cacheDelete c x), t, m⟩, [],
              log ++ [.cacheDelete .CACHE_NAME x]⟩) := by
        unfold evictStep
        rw [if_pos he, cacheDeleteAsync_quiet]
        rfl
      unfold forEach
      rw [bind_run hstep, h2, List.foldl_cons, evictEntry_pos c he]
    · obtain ⟨log2, h2⟩ := ih c log
      refine ⟨log2, ?_⟩
      have hstep : evictStep origin old x ⟨⟨some c, t, m⟩, [], log⟩
          = (.ok (), ⟨⟨some c, t, m⟩, [], log⟩) := by
        unfold evictStep
        rw [if_neg he]
        rfl
      unfold forEach
      rw [bind_run hstep, h2, List.foldl_cons, evictEntry_neg c he]

theorem storable_manifestResponse : storable manifestResponse = true := rfl

/-- On a host that rejects nothing, the `try` block completes whenever the manifest cache
holds no manifest or one that parses, the staged responses being ones the host stores, as
all that `addAll` staged are: success is then decided by the stored data alone. -/
theorem activateTry_quiet (origin : String) (s s2 : CacheStorage) (log : List HostCall)
    (hst : ∀ e ∈ s.entries .TEMP, storable e.2 = true)
    (h : activated origin s = some s2) :
    (activateTry origin ⟨s, [], log⟩).1 = .ok ()
      ∧ (activateTry origin ⟨s, [], log⟩).2.caches = s2 := by
  unfold activated at h
  unfold activateTry
  rw [bind_run (cachesOpen_quiet _ _ _), bind_run (cachesOpen_quiet _ _ _),
    bind_run (cachesOpen_quiet _ _ _), opened_all, bind_run (cacheMatchAsync_quiet _ _ _ _)]
  have hm : cacheMatch ((⟨some (s.entries .CACHE_NAME), some (s.entries .TEMP),
      some (s.entries .MANIFEST)⟩ : CacheStorage).entries .MANIFEST)
        (resolveUrl origin "manifest")
      = cacheMatch (s.entries .MANIFEST) (resolveUrl origin "manifest") := rfl
  rw [hm]
  cases hc : cacheMatch (s.entries .MANIFEST) (resolveUrl origin "manifest") with
  | none =>
    rw [hc] at h
    simp only [Option.some.injEq] at h
    simp only
    rw [bind_run (cachesDelete_quiet _ _ _), bind_run (cachesOpen_quiet _ _ _)]
    obtain ⟨log2, h2⟩ := populate_quiet [] (s.entries .TEMP) (some (s.entries .MANIFEST))
      (log ++ [.cachesOpen .CACHE_NAME] ++ [.cachesOpen .TEMP] ++ [.cachesOpen .MANIFEST]
        ++ [.cacheMatch .MANIFEST (resolveUrl origin "manifest")]
        ++ [.cachesDelete .CACHE_NAME] ++ [.cachesOpen .CACHE_NAME]) hst
    have h3 : populate ⟨((⟨some (s.entries .CACHE_NAME), some (s.entries .TEMP),
        some (s.entries .MANIFEST)⟩ : CacheStorage).deleted .CACHE_NAME).opened .CACHE_NAME, [],
        log ++ [.cachesOpen .CACHE_NAME] ++ [.cachesOpen .TEMP] ++ [.cachesOpen .MANIFEST]
        ++ [.cacheMatch .MANIFEST (resolveUrl origin "manifest")]
        ++ [.cachesDelete .CACHE_NAME] ++ [.cachesOpen .CACHE_NAME]⟩ = _ := h2
    rw [bind_run h3, bind_run (cachesDelete_quiet _ _ _), bind_run (cachePutAsync_quiet _ _ _ _ storable_manifestResponse)]
    rw [← h]
    exact ⟨rfl, rfl⟩
  | some manifest =>
    rw [hc] at h
    simp only at h
    cases hp : jsonParse manifest.body with
    | none =>
      rw [hp] at h
      cases h
    | some old =>
      rw [hp] at h
      simp only [Option.some.injEq] at h
      simp only
      have hj : responseJson manifest ⟨⟨some (s.entries .CACHE_NAME), some (s.entries .TEMP),
          some (s.entries .MANIFEST)⟩, [],
          log ++ [.cachesOpen .CACHE_NAME] ++ [.cachesOpen .TEMP] ++ [.cachesOpen .MANIFEST]
          ++ [.cacheMatch .MANIFEST (resolveUrl origin "manifest")]⟩
          = (.ok old, ⟨⟨some (s.entries .CACHE_NAME), some (s.entries .TEMP),
              some (s.entries .MANIFEST)⟩, [],
              log ++ [.cachesOpen .CACHE_NAME] ++ [.cachesOpen .TEMP] ++ [.cachesOpen .MANIFEST]
              ++ [.cacheMatch .MANIFEST (resolveUrl origin "manifest")] ++ [.responseJson]⟩) := by
        unfold responseJson
        rw [bind_run (hostCall_run (by simp))]
        rw [hp]
        rfl
      rw [bind_run hj, bind_run (cacheKeysAsync_quiet _ _ _)]
      obtain ⟨log2, h2⟩ := evictLoop_quiet origin old (some (s.entries .TEMP))
        (some (s.entries .MANIFEST)) (cacheKeys (s.entries .CACHE_NAME)) (s.entries .CACHE_NAME)
        (log ++ [.cachesOpen .CACHE_NAME] ++ [.cachesOpen .TEMP] ++ [.cachesOpen .MANIFEST]
          ++ [.cacheMatch .MANIFEST (resolveUrl origin "manifest")] ++ [.responseJson]
          ++ [.cacheKeys .CACHE_NAME])
      have h3 : forEach (cacheKeys ((⟨some (s.entries .CACHE_NAME), some (s.entries .TEMP),
          some (s.entries .MANIFEST)⟩ : CacheStorage).entries .CACHE_NAME))
          (evictStep origin old) _ = _ := h2
      rw [bind_run h3]
      obtain ⟨log3, h4⟩ := populate_quiet
        ((cacheKeys (s.entries .CACHE_NAME)).foldl (evictEntry origin old)
          (s.entries .CACHE_NAME)) (s.entries .TEMP) (some (s.entries .MANIFEST)) log2 hst
      rw [bind_run h4, bind_run (cachesDelete_quiet _ _ _),
        bind_run (cachePutAsync_quiet _ _ _ _ storable_manifestResponse)]
      rw [← h]
      exact ⟨rfl, rfl⟩

/-! ## The manifest cache holds one key -/

theorem preserves_bind {α β : Type} {I : CacheStorage → Prop} {m : Async α}
    {k : α → Async β} (hm : Preserves I m) (hk : ∀ a, Preserves I (k a)) :
    Preserves I (m >>= k) := by
  intro w hw
  show I (match m w with
    | (.ok a, w1) => k a w1
    | (.error e, w1) => (.error e, w1)).2.caches
  have h1 := hm w hw
  rcases hr : m w with ⟨r, w1⟩
  rw [hr] at h1
  cases r with
  | ok a => exact hk a w1 h1
  | error e => exact h1

theorem preserves_pure {α : Type} {I : CacheStorage → Prop} (a : α) :
    Preserves I (pure a : Async α) :=
  fun _ hw => hw

theorem preserves_raise {α : Type} {I : CacheStorage → Prop} (e : Exception) :
    Preserves I (raise e : Async α) :=
  fun _ hw => hw

theorem preserves_hostCall {I : CacheStorage → Prop} (c : HostCall) :
    Preserves I (hostCall c) := by
  intro w hw
  unfold hostCall
  split <;> exact hw

theorem preserves_modifyCaches {I : CacheStorage → Prop} {f : CacheStorage → CacheStorage}
    (hf : ∀ s, I s → I (f s)) : Preserves I (modifyCaches f) :=
  fun w hw => hf w.caches hw

theorem preserves_getCaches {I : CacheStorage → Prop} : Preserves I getCaches :=
  fun _ hw => hw

theorem preserves_forEach {α : Type} {I : CacheStorage → Prop} {body : α → Async Unit}
    (hb : ∀ a, Preserves I (body a)) : ∀ xs : List α, Preserves I (forEach xs body) := by
  intro xs
  induction xs with
  | nil => exact preserves_pure ()
  | cons x xs ih =>
    unfold forEach
    exact preserves_bind (hb x) (fun _ => ih)

theorem preserves_tryCatch {α : Type} {I : CacheStorage → Prop} {body : Async α}
    {handler : Exception → Async α} (hb : Preserves I body)
    (hh : ∀ e, Preserves I (handler e)) : Preserves I (tryCatch body handler) := by
  intro w hw
  unfold tryCatch
  have h1 := hb w hw
  rcases hr : body w with ⟨r, w1⟩
  rw [hr] at h1
  cases r with
  | ok a => exact h1
  | error e => exact hh e w1 h1

theorem manifestOnly_opened {origin : String} {s : CacheStorage} (n : CacheName)
    (h : ManifestOnly origin s) : ManifestOnly origin (s.opened n) := by
  rcases s with ⟨c, t, m⟩
  cases n
  · cases m with
    | none =>
      intro e he
      cases he
    | some m => exact h
  · cases t <;> exact h
  · cases c <;> exact h

theorem manifestOnly_deleted {origin : String} {s : CacheStorage} (n : CacheName)
    (h : ManifestOnly origin s) : ManifestOnly origin (s.deleted n) := by
  rcases s with ⟨c, t, m⟩
  cases n
  · intro e he
    cases he
  · exact h
  · exact h

theorem manifestOnly_update_content {origin : String} {s : CacheStorage} (f : Cache → Cache)
    (h : ManifestOnly origin s) : ManifestOnly origin (s.update .CACHE_NAME f) := by
  rcases s with ⟨c, t, m⟩
  cases c <;> exact h

theorem manifestOnly_put {origin : String} {s : CacheStorage} (r : Response)
    (h : ManifestOnly origin s) :
    ManifestOnly origin
      (s.update .MANIFEST (fun c => cachePut c (resolveUrl origin "manifest") r)) := by
  rcases s with ⟨c, t, m⟩
  cases m with
  | none => exact h
  | some m =>
    intro e he
    have he2 : e ∈ cachePut m (resolveUrl origin "manifest") r := he
    rw [mem_cachePut] at he2
    rcases he2 with ⟨hm, -⟩ | heq
    · exact h e hm
    · rw [heq]

theorem preserves_cachesOpen (origin : String) (n : CacheName) :
    Preserves (ManifestOnly origin) (cachesOpen n) :=
  preserves_bind (preserves_hostCall _)
    (fun _ => preserves_modifyCaches (fun _ h => manifestOnly_opened n h))

theorem preserves_cachesDelete (origin : String) (n : CacheName) :
    Preserves (ManifestOnly origin) (cachesDelete n) :=
  preserves_bind (preserves_hostCall _)
    (fun _ => preserves_modifyCaches (fun _ h => manifestOnly_deleted n h))

theorem preserves_cacheMatchAsync (origin : String) (n : CacheName) (url : String) :
    Preserves (ManifestOnly origin) (cacheMatchAsync n url) :=
  preserves_bind (preserves_hostCall _)
    (fun _ => preserves_bind preserves_getCaches (fun _ => preserves_pure _))

theorem preserves_cacheKeysAsync (origin : String) (n : CacheName) :
    Preserves (ManifestOnly origin) (cacheKeysAsync n) :=
  preserves_bind (preserves_hostCall _)
    (fun _ => preserves_bind preserves_getCaches (fun _ => preserves_pure _))

theorem preserves_populate (origin : String) : Preserves (ManifestOnly origin) populate := by
  unfold populate
  refine preserves_bind (preserves_cacheKeysAsync origin _) (fun requests => ?_)
  refine preserves_forEach (fun request => ?_) requests
  unfold populateStep
  refine preserves_bind (preserves_cacheMatchAsync origin _ _) (fun response => ?_)
  cases response with
  | none => exact preserves_raise _
  | some r =>
    refine preserves_bind (preserves_hostCall _) (fun _ => ?_)
    split
    · exact preserves_modifyCaches (fun _ h => manifestOnly_update_content _ h)
    · exact preserves_raise _

theorem preserves_writeManifest (origin : String) :
    Preserves (ManifestOnly origin)
      (cachePutAsync .MANIFEST (resolveUrl origin "manifest") (some manifestResponse)) :=
  preserves_bind (preserves_hostCall _)
    (fun _ => by
      split
      · exact preserves_modifyCaches (fun _ h => manifestOnly_put _ h)
      · exact preserves_raise _)

theorem preserves_clientsClaim (origin : String) :
    Preserves (ManifestOnly origin) clientsClaim :=
  fun _ hw => hw

/-- Whatever happens during it, the activate handler never leaves an entry under another key
than `'manifest'` in the manifest cache. -/
theorem activate_manifestOnly (origin : String) :
    Preserves (ManifestOnly origin) (activate origin) := by
  unfold activate
  refine preserves_tryCatch ?_ (fun _ => ?_)
  · unfold activateTry
    refine preserves_bind (preserves_cachesOpen origin _) (fun _ => ?_)
    refine preserves_bind (preserves_cachesOpen origin _) (fun _ => ?_)
    refine preserves_bind (preserves_cachesOpen origin _) (fun _ => ?_)
    refine preserves_bind (preserves_cacheMatchAsync origin _ _) (fun manifest => ?_)
    cases manifest with
    | none =>
      refine preserves_bind (preserves_cachesDelete origin _) (fun _ => ?_)
      refine preserves_bind (preserves_cachesOpen origin _) (fun _ => ?_)
      refine preserves_bind (preserves_populate origin) (fun _ => ?_)
      refine preserves_bind (preserves_cachesDelete origin _) (fun _ => ?_)
      exact preserves_bind (preserves_writeManifest origin)
        (fun _ => preserves_clientsClaim origin)
    | some manifest =>
      refine preserves_bind ?_ (fun old => ?_)
      · unfold responseJson
        refine preserves_bind (preserves_hostCall _) (fun _ => ?_)
        cases jsonParse manifest.body with
        | none => exact preserves_raise _
        | some t => exact preserves_pure _
      refine preserves_bind (preserves_cacheKeysAsync origin _) (fun requests => ?_)
      refine preserves_bind ?_ (fun _ => ?_)
      · refine preserves_forEach (fun request => ?_) requests
        unfold evictStep
        split
        · exact preserves_bind (preserves_hostCall _)
            (fun _ => preserves_modifyCaches (fun _ h => manifestOnly_update_content _ h))
        · exact preserves_pure _
      refine preserves_bind (preserves_populate origin) (fun _ => ?_)
      refine preserves_bind (preserves_cachesDelete origin _) (fun _ => ?_)
      exact preserves_bind (preserves_writeManifest origin)
        (fun _ => preserves_clientsClaim origin)
  · unfold activateCatch
    refine preserves_bind (preserves_cachesDelete origin _) (fun _ => ?_)
    exact preserves_bind (preserves_cachesDelete origin _)
      (fun _ => preserves_cachesDelete origin _)

theorem opened_manifest (s : CacheStorage) :
    (s.opened .CACHE_NAME).manifest = s.manifest := by
  rcases s with ⟨c, t, m⟩
  cases c <;> rfl

theorem update_manifest (s : CacheStorage) (f : Cache → Cache) :
    (s.update .CACHE_NAME f).manifest = s.manifest := by
  rcases s with ⟨c, t, m⟩
  cases c <;> rfl

theorem preserves_detached {α : Type} {I : CacheStorage → Prop} {m : Async α}
    (hm : Preserves I m) : Preserves I (detached m) :=
  fun w hw => hm w hw

theorem preserves_fetch {I : CacheStorage → Prop} (network : Network) (request : Request) :
    Preserves I (fetch network request) := by
  intro w hw
  unfold fetch
  split <;> exact hw

theorem preserves_openContent (m : Option Cache) :
    Preserves (fun s => s.manifest = m) (cachesOpen .CACHE_NAME) :=
  preserves_bind (preserves_hostCall _)
    (fun _ => preserves_modifyCaches (fun s h => (opened_manifest s).trans h))

theorem preserves_putContent (m : Option Cache) (url : String) (response : Option Response) :
    Preserves (fun s => s.manifest = m) (cachePutAsync .CACHE_NAME url response) := by
  unfold cachePutAsync
  cases response with
  | none => exact preserves_raise _
  | some r =>
    refine preserves_bind (preserves_hostCall _) (fun _ => ?_)
    split
    · exact preserves_modifyCaches (fun s h => (update_manifest s _).trans h)
    · exact preserves_raise _

theorem preserves_matchContent (m : Option Cache) (url : String) :
    Preserves (fun s => s.manifest = m) (cacheMatchAsync .CACHE_NAME url) :=
  preserves_bind (preserves_hostCall _)
    (fun _ => preserves_bind preserves_getCaches (fun _ => preserves_pure _))

/-- The fetch handler does not touch the manifest cache, whatever the network and the host
do. -/
theorem fetchHandler_manifest (origin : String) (network : Network) (request : Request)
    (w : World) :
    (fetchHandler origin network request w).2.caches.manifest = w.caches.manifest := by
  have hon : Preserves (fun s => s.manifest = w.caches.manifest)
      (onlineFirst network request) := by
    unfold onlineFirst
    refine preserves_tryCatch ?_ (fun error => ?_)
    · refine preserves_bind (preserves_fetch _ _) (fun response => ?_)
      refine preserves_bind (preserves_openContent _) (fun _ => ?_)
      exact preserves_bind (preserves_detached (preserves_putContent _ _ _))
        (fun _ => preserves_pure _)
    · refine preserves_bind (preserves_openContent _) (fun _ => ?_)
      refine preserves_bind (preserves_matchContent _ _) (fun response => ?_)
      cases response with
      | none => exact preserves_raise _
      | some r => exact preserves_pure _
  have hcf : Preserves (fun s => s.manifest = w.caches.manifest)
      (cacheFirst network request) := by
    unfold cacheFirst
    refine preserves_bind (preserves_openContent _) (fun _ => ?_)
    refine preserves_bind (preserves_matchContent _ _) (fun response => ?_)
    cases response with
    | some r => exact preserves_pure _
    | none =>
      refine preserves_bind (preserves_fetch _ _) (fun response => ?_)
      simp only
      split
      · exact preserves_bind (preserves_detached (preserves_putContent _ _ _))
          (fun _ => preserves_pure _)
      · exact preserves_bind (preserves_pure _) (fun _ => preserves_pure _)
  unfold fetchHandler respondWith
  simp only
  split_ifs
  · rfl
  · rfl
  · exact hon w rfl
  · exact hcf w rfl

/-- Nor do `downloadOffline` and the message handler. -/
theorem downloadOffline_manifest (origin : String) (network : Network) (w : World) :
    (downloadOffline origin network w).2.caches.manifest = w.caches.manifest
      ∧ ∀ data, (messageHandler origin network data w).2.caches.manifest
          = w.caches.manifest := by
  have hd : Preserves (fun s => s.manifest = w.caches.manifest)
      (downloadOffline origin network) := by
    unfold downloadOffline
    refine preserves_bind (preserves_openContent _) (fun _ => ?_)
    refine preserves_bind
      (preserves_bind (preserves_hostCall _)
        (fun _ => preserves_bind preserves_getCaches (fun _ => preserves_pure _)))
      (fun requests => ?_)
    unfold cacheAddAllAsync
    refine preserves_bind (preserves_hostCall _) (fun _ => ?_)
    split
    · exact preserves_raise _
    · split
      · exact preserves_modifyCaches (fun s h => (update_manifest s _).trans h)
      · exact preserves_raise _
  refine ⟨hd w rfl, fun data => ?_⟩
  unfold messageHandler
  split_ifs
  · rfl
  · exact hd w rfl
  · rfl

/-! ## Claims on the activate handler -/

/-- C1 (as stated, refuted): on a first activation whose temporary cache stages a file the
table does not list, the handler completes and the content cache holds an entry whose key
is not a key of `RESOURCES`. -/
theorem content_key_outside_table :
    (activate sampleOrigin firstInstallWorld).1 = .ok ()
      ∧ (activate sampleOrigin firstInstallWorld).2.caches.content = some
          [("https://marshes.example/main.dart.js", freshResponse),
           ("https://marshes.example/assets/retired.png", freshResponse)]
      ∧ requestKey sampleOrigin "https://marshes.example/assets/retired.png"
          ∉ objectKeys RESOURCES := by
  decide!

/-- C1 (amended): whenever the activate handler completes without raising, with or without a
saved manifest and whether or not a step of its `try` block failed, every entry of the
content cache was staged in the temporary cache when the handler started, or has a key that
is a key of `RESOURCES`, or has a key that names a member inherited from `Object.prototype`. -/
theorem content_keys_after_activation (origin : String) (w : World)
    (hdone : (activate origin w).1 = .ok ()) :
    ∀ c, (activate origin w).2.caches.content = some c → ∀ e ∈ c,
      e.1 ∈ cacheKeys (w.caches.entries .TEMP)
        ∨ requestKey origin e.1 ∈ objectKeys RESOURCES
        ∨ requestKey origin e.1 ∈ objectPrototypeNames := by
  intro c hc e he
  rcases htry : (activateTry origin w).1 with err | u
  · rw [activate_of_try_error htry] at hdone hc
    have hcatch : activateCatch (activateTry origin w).2
        = (.ok (), (activateCatch (activateTry origin w).2).2) := by
      rcases hr : activateCatch (activateTry origin w).2 with ⟨r, w1⟩
      rw [hr] at hdone
      cases hdone
      rfl
    rw [activateCatch_ok hcatch] at hc
    cases hc
  · have hact := activated_of_try_ok htry
    unfold activated at hact
    cases hm : cacheMatch (w.caches.entries .MANIFEST) (resolveUrl origin "manifest") with
    | none =>
      rw [hm] at hact
      simp only [Option.some.injEq] at hact
      rw [← hact] at hc
      simp only [Option.some.injEq] at hc
      subst hc
      rcases mem_populateFold_cases _ e _ _ he with h | h
      · cases h
      · exact Or.inl h
    | some manifest =>
      rw [hm] at hact
      simp only at hact
      cases hp : jsonParse manifest.body with
      | none =>
        rw [hp] at hact
        cases hact
      | some old =>
        rw [hp] at hact
        simp only [Option.some.injEq] at hact
        rw [← hact] at hc
        simp only [Option.some.injEq] at hc
        subst hc
        rcases mem_populateFold_cases _ e _ _ he with h | h
        · have hkeep := (evicts_false_of_mem_evictCache h).2
          exact Or.inr (truthy_getProperty (truthy_of_not_evicts hkeep))
        · exact Or.inl h

/-- C1 (amended), at the upgrade of `upgradeWorld`: the handler completes and the entries it
leaves are the staged `main.dart.js` and the unchanged `flutter.js`. -/
theorem content_keys_after_activation_witness :
    (activate sampleOrigin upgradeWorld).1 = .ok ()
      ∧ (activate sampleOrigin upgradeWorld).2.caches.content = some
          [("https://marshes.example/flutter.js", staleResponse),
           ("https://marshes.example/main.dart.js", freshResponse)]
      ∧ ∀ e ∈ [("https://marshes.example/flutter.js", staleResponse),
            ("https://marshes.example/main.dart.js", freshResponse)],
          e.1 ∈ cacheKeys (upgradeWorld.caches.entries .TEMP)
            ∨ requestKey sampleOrigin e.1 ∈ objectKeys RESOURCES
            ∨ requestKey sampleOrigin e.1 ∈ objectPrototypeNames :=
  ⟨by decide!, by decide!,
    content_keys_after_activation sampleOrigin upgradeWorld (by decide!) _ (by decide!)⟩

/-- C2: after an activation whose `try` block completes without an exception, in either
branch and whatever the previous manifest contained, the manifest cache is what it was with
the entry `'manifest'` replaced by the serialisation of `RESOURCES`. The partition never
holds another key (`activate_manifestOnly`), so this is its one entry; and parsing the stored
body gives back `RESOURCES`, key for key and hash for hash. -/
theorem manifest_after_activation (origin : String) (w : World)
    (hok : (activateTry origin w).1 = .ok ()) :
    (activate origin w).2.caches.manifest
        = some (cachePut (w.caches.entries .MANIFEST) (resolveUrl origin "manifest")
            manifestResponse)
      ∧ (ManifestOnly origin w.caches →
          (activate origin w).2.caches.manifest
            = some [(resolveUrl origin "manifest", manifestResponse)])
      ∧ manifestResponse.body = jsonStringify RESOURCES
      ∧ jsonParse manifestResponse.body = some RESOURCES := by
  obtain ⟨base, hs, -⟩ := caches_of_try_ok hok
  refine ⟨by rw [hs], ?_, rfl, jsonParse_manifestResponse⟩
  intro hwf
  rw [hs]
  simp only
  rw [cachePut_only manifestResponse hwf]

/-- C2, at the upgrade of `upgradeWorld` and at the first activation of `firstInstallWorld`:
both complete, and both leave the manifest cache with the one entry that serialises
`RESOURCES`. -/
theorem manifest_after_activation_witness :
    (activateTry sampleOrigin upgradeWorld).1 = .ok ()
      ∧ ManifestOnly sampleOrigin upgradeWorld.caches
      ∧ (activate sampleOrigin upgradeWorld).2.caches.manifest
          = some [(resolveUrl sampleOrigin "manifest", manifestResponse)]
      ∧ (activate sampleOrigin firstInstallWorld).2.caches.manifest
          = some [(resolveUrl sampleOrigin "manifest", manifestResponse)] :=
  ⟨by decide!, by unfold ManifestOnly; decide!,
    (manifest_after_activation sampleOrigin upgradeWorld (by decide!)).2.1
      (by unfold ManifestOnly; decide!),
    (manifest_after_activation sampleOrigin firstInstallWorld (by decide!)).2.1
      (by unfold ManifestOnly; decide!)⟩

/-- C3 (as stated, refuted): when the host rejects the opening of the content cache and then
the first deletion of the recovery, the handler fails with that rejection and the three
partitions are still there. -/
theorem activate_fails_when_recovery_rejected :
    (activateTry sampleOrigin rejectingWorld).1
        = .error (.rejected (.cachesOpen .CACHE_NAME))
      ∧ (activate sampleOrigin rejectingWorld).1
        = .error (.rejected (.cachesDelete .CACHE_NAME))
      ∧ (activate sampleOrigin rejectingWorld).2.caches = upgradeWorld.caches
      ∧ (activate sampleOrigin rejectingWorld).2.caches.manifest = some [oldManifestEntry] := by
  decide!

/-- C3 (amended): if a step of the `try` block raises an exception and the three deletions of
the recovery are not themselves rejected, then the handler does not fail, all three
partitions have been deleted, so that no manifest entry survives, and after the failing step
the handler calls the host for these three deletions only: nothing is retried. -/
theorem activate_recovers (origin : String) (w : World) (e : Exception)
    (hfail : (activateTry origin w).1 = .error e)
    (hrecovery : ∀ b ∈ (activateTry origin w).2.faults.take 3, b = false) :
    (activate origin w).1 = .ok ()
      ∧ (activate origin w).2.caches = allDeleted
      ∧ (activate origin w).2.caches.manifest = none
      ∧ (activate origin w).2.log
          = (activateTry origin w).2.log
            ++ [.cachesDelete .CACHE_NAME, .cachesDelete .TEMP, .cachesDelete .MANIFEST] := by
  rw [activate_of_try_error hfail, activateCatch_run hrecovery]
  exact ⟨rfl, rfl, rfl, rfl⟩

/-- C3 (amended), at `faultyWorld`: reading the old manifest is rejected, the recovery runs,
and the handler ends normally with the three partitions deleted. -/
theorem activate_recovers_witness :
    (activateTry sampleOrigin faultyWorld).1 = .error (.rejected .responseJson)
      ∧ (activate sampleOrigin faultyWorld).1 = .ok ()
      ∧ (activate sampleOrigin faultyWorld).2.caches = allDeleted :=
  ⟨by decide!,
    (activate_recovers sampleOrigin faultyWorld (.rejected .responseJson)
      (by decide!) (by decide!)).1,
    (activate_recovers sampleOrigin faultyWorld (.rejected .responseJson)
      (by decide!) (by decide!)).2.1⟩

/-- C4 (the code at the failing input): an upgrade keeps the cached response for
`/constructor`, which is not staged and whose key is not a key of `RESOURCES`, because
`RESOURCES['constructor']` and `oldManifest['constructor']` are the same inherited
function. -/
theorem activate_keeps_inherited_key :
    (activateTry sampleOrigin inheritedKeyWorld).1 = .ok ()
      ∧ ("https://marshes.example/constructor", staleResponse)
          ∈ inheritedKeyWorld.caches.entries .CACHE_NAME
      ∧ "https://marshes.example/constructor"
          ∉ cacheKeys (inheritedKeyWorld.caches.entries .TEMP)
      ∧ requestKey sampleOrigin "https://marshes.example/constructor" = "constructor"
      ∧ "constructor" ∉ objectKeys RESOURCES
      ∧ (activate sampleOrigin inheritedKeyWorld).2.caches.content
          = some [("https://marshes.example/constructor", staleResponse)] := by
  decide!

/-- C5: after an activation whose `try` block completes without an exception, in either
branch, the temporary cache has been deleted and every request that was staged in it matches,
in the content cache, the response it was staged with, whatever the content cache held for
it before. -/
theorem staged_entries_promoted (origin : String) (w : World)
    (hok : (activateTry origin w).1 = .ok ()) :
    (activate origin w).2.caches.temp = none
      ∧ ∃ c, (activate origin w).2.caches.content = some c
        ∧ ∀ request ∈ cacheKeys (w.caches.entries .TEMP),
            ∃ response, cacheMatch (w.caches.entries .TEMP) request = some response
              ∧ cacheMatch c request = some response := by
  obtain ⟨base, hs, -⟩ := caches_of_try_ok hok
  rw [hs]
  exact ⟨rfl, _, rfl, fun request hr => cacheMatch_populateCache hr⟩

/-- C5, at the upgrade of `upgradeWorld`: the staged `main.dart.js` replaces the stale one and
the temporary cache is gone. -/
theorem staged_entries_promoted_witness :
    (activateTry sampleOrigin upgradeWorld).1 = .ok ()
      ∧ cacheMatch (upgradeWorld.caches.entries .CACHE_NAME)
          "https://marshes.example/main.dart.js" = some staleResponse
      ∧ (activate sampleOrigin upgradeWorld).2.caches.temp = none
      ∧ ∃ c, (activate sampleOrigin upgradeWorld).2.caches.content = some c
        ∧ ∀ request ∈ cacheKeys (upgradeWorld.caches.entries .TEMP),
            ∃ response, cacheMatch (upgradeWorld.caches.entries .TEMP) request = some response
              ∧ cacheMatch c request = some response :=
  ⟨by decide!, by decide!, staged_entries_promoted sampleOrigin upgradeWorld (by decide!)⟩

/-! ## Claims on the fetch handler -/

/-- C6 (counterexample): two GET requests for the root document whose network fetch succeeds.
When the network answers with `variedResponse`, of status 200 and header `Vary: *`, the
handler responds with it but the host refuses the `put`: the content cache still holds the
stale response. And when the host rejects the first `caches.open`, the `catch` of
`onlineFirst` runs: the handler responds with the cached stale response, not with the network
response, and stores nothing. -/
theorem root_response_not_stored :
    variedNetwork { method := "GET", url := "https://marshes.example/" } = .ok variedResponse
      ∧ fetchHandler sampleOrigin variedNetwork
          { method := "GET", url := "https://marshes.example/" } servingWorld
        = (some (.ok variedResponse),
            { caches := servingCaches
              faults := []
              log := [.fetch "https://marshes.example/", .cachesOpen .CACHE_NAME,
                .cachePut .CACHE_NAME "https://marshes.example/"] })
      ∧ cacheMatch (servingCaches.entries .CACHE_NAME) "https://marshes.example/"
        = some staleResponse
      ∧ onlineNetwork { method := "GET", url := "https://marshes.example/" }
        = .ok freshResponse
      ∧ fetchHandler sampleOrigin onlineNetwork
          { method := "GET", url := "https://marshes.example/" } refusingWorld
        = (some (.ok staleResponse),
            { caches := servingCaches
              faults := []
              log := [.fetch "https://marshes.example/", .cachesOpen .CACHE_NAME,
                .cachesOpen .CACHE_NAME,
                .cacheMatch .CACHE_NAME "https://marshes.example/"] }) := by
  decide!

/-- C6 (amended): for a GET request for the root document, when the host rejects neither of
the two cache calls that follow, the handler fetches from the network first whatever the
content cache holds. When the fetch succeeds it responds with the network response and puts
it in the content cache under the request, where it replaces the entries the request
matches, unless the host refuses to store it (status 206 or `Vary: *`), in which case the
cache keeps its entries. When the fetch fails it looks the request up in the content cache
and responds with the cached response if there is one, and with the same network error
otherwise, and the cache keeps its entries. -/
theorem root_is_online_first (origin : String) (network : Network) (request : Request)
    (w : World) (hget : request.method = "GET")
    (hroot : request.url = origin ∨ startsWith request.url (origin ++ "/#") = true
      ∨ versionlessKey origin request.url = "")
    (hhost : ∀ b ∈ w.faults.take 2, b = false) :
    (∀ response, network request = .ok response →
        (fetchHandler origin network request w).1 = some (.ok response)
          ∧ (fetchHandler origin network request w).2.log
            = w.log ++ [.fetch request.url, .cachesOpen .CACHE_NAME,
                .cachePut .CACHE_NAME request.url]
          ∧ (storable response = true →
              (fetchHandler origin network request w).2.caches
                = { w.caches with
                    content :=
                      some (cachePut (w.caches.entries .CACHE_NAME) request.url response) })
          ∧ (storable response = false →
              (fetchHandler origin network request w).2.caches
                = w.caches.opened .CACHE_NAME))
      ∧ (∀ message, network request = .error message →
          (fetchHandler origin network request w).2.log
            = w.log ++ [.fetch request.url, .cachesOpen .CACHE_NAME,
                .cacheMatch .CACHE_NAME request.url]
          ∧ (∀ cached, cacheMatch (w.caches.entries .CACHE_NAME) request.url = some cached →
              (fetchHandler origin network request w).1 = some (.ok cached))
          ∧ (cacheMatch (w.caches.entries .CACHE_NAME) request.url = none →
              (fetchHandler origin network request w).1
                = some (.error (.networkError message)))
          ∧ (fetchHandler origin network request w).2.caches
              = w.caches.opened .CACHE_NAME) := by
  rw [fetchHandler_root hget (fetchKey_root hroot)]
  unfold respondWith
  constructor
  · intro response hn
    rw [onlineFirst_online hn hhost]
    refine ⟨rfl, by simp, ?_, ?_⟩
    · intro hs
      simp only [hs, if_true]
      exact update_opened_content _ _
    · intro hs
      simp only [hs, Bool.false_eq_true, if_false]
  · intro message hn
    rw [onlineFirst_offline hn hhost]
    refine ⟨by simp, ?_, ?_, rfl⟩
    · intro cached hc
      simp only [hc]
    · intro hc
      simp only [hc]

/-- C6, at the root request on a host that rejects nothing: online the network response is
served and replaces the cached one; offline the cached response is served, also for a URL
with a fragment, which matches the cached root; and offline with a version suffix, for which
nothing is cached, the network error comes back. -/
theorem root_is_online_first_witness :
    (fetchHandler sampleOrigin onlineNetwork
        { method := "GET", url := "https://marshes.example/" } servingWorld).1
        = some (.ok freshResponse)
      ∧ (fetchHandler sampleOrigin onlineNetwork
          { method := "GET", url := "https://marshes.example/" } servingWorld).2.caches
        = { servingCaches with
            content := some
              [("https://marshes.example/index.html", staleResponse),
               ("https://marshes.example/main.dart.js", staleResponse),
               ("https://marshes.example/", freshResponse)] }
      ∧ (fetchHandler sampleOrigin offlineNetwork
          { method := "GET", url := "https://marshes.example/#/home" } servingWorld).1
        = some (.ok staleResponse)
      ∧ (fetchHandler sampleOrigin offlineNetwork
          { method := "GET", url := "https://marshes.example/?v=7" } servingWorld).1
        = some (.error (.networkError "offline")) :=
  ⟨((root_is_online_first sampleOrigin onlineNetwork
        { method := "GET", url := "https://marshes.example/" } servingWorld rfl
        (by decide!) (by decide!)).1 freshResponse rfl).1,
    ((root_is_online_first sampleOrigin onlineNetwork
        { method := "GET", url := "https://marshes.example/" } servingWorld rfl
        (by decide!) (by decide!)).1 freshResponse rfl).2.2.1 (by decide!),
    ((root_is_online_first sampleOrigin offlineNetwork
        { method := "GET", url := "https://marshes.example/#/home" } servingWorld rfl
        (by decide!) (by decide!)).2 "offline" rfl).2.1 staleResponse (by decide!),
    ((root_is_online_first sampleOrigin offlineNetwork
        { method := "GET", url := "https://marshes.example/?v=7" } servingWorld rfl
        (by decide!) (by decide!)).2 "offline" rfl).2.2.1 (by decide!)⟩

/-- C7 (counterexample): a GET request for a listed sound file that is not cached, answered
with `partialResponse`, whose status 206 is an ok status: the handler responds with it and
calls `put`, which the host refuses, so the content cache gains no entry. And a GET request
for `main.dart.js`, which is cached, on a host that rejects `caches.open`: the handler does
not respond with the cached response, its promise is rejected. -/
theorem partial_response_not_stored :
    fetchKey sampleOrigin "https://marshes.example/assets/assets/audio/music/bg_music_1.mp3"
        = "assets/assets/audio/music/bg_music_1.mp3"
      ∧ "assets/assets/audio/music/bg_music_1.mp3" ∈ objectKeys RESOURCES
      ∧ partialResponse.ok = true
      ∧ fetchHandler sampleOrigin partialNetwork
          { method := "GET"
            url := "https://marshes.example/assets/assets/audio/music/bg_music_1.mp3" }
          servingWorld
        = (some (.ok partialResponse),
            { caches := servingCaches
              faults := []
              log := [.cachesOpen .CACHE_NAME,
                .cacheMatch .CACHE_NAME
                  "https://marshes.example/assets/assets/audio/music/bg_music_1.mp3",
                .fetch "https://marshes.example/assets/assets/audio/music/bg_music_1.mp3",
                .cachePut .CACHE_NAME
                  "https://marshes.example/assets/assets/audio/music/bg_music_1.mp3"] })
      ∧ cacheMatch (servingCaches.entries .CACHE_NAME) "https://marshes.example/main.dart.js"
        = some staleResponse
      ∧ fetchHandler sampleOrigin onlineNetwork
          { method := "GET", url := "https://marshes.example/main.dart.js" } refusingWorld
        = (some (.error (.rejected (.cachesOpen .CACHE_NAME))),
            { caches := servingCaches
              faults := []
              log := [.cachesOpen .CACHE_NAME] }) := by
  decide!

/-- C7 (amended): for a GET request whose versionless key is a key of `RESOURCES` other than
`'/'`, when the host rejects none of the cache calls. If the content cache holds a response
the request matches, the handler responds with it, fetches nothing and leaves the storage as
it is. If it holds none, the handler fetches once and responds with what the network gives;
the content cache gains the response under the request when the response is ok and the host
stores it (its status is not 206 and its `Vary` header is not `*`), and keeps its entries
when the response is not ok, when the host refuses it, or when the fetch fails. -/
theorem listed_is_cache_first (origin : String) (network : Network) (request : Request)
    (w : World) (hget : request.method = "GET")
    (hkey : versionlessKey origin request.url ∈ objectKeys RESOURCES)
    (hroot : versionlessKey origin request.url ≠ "/")
    (hhost : ∀ b ∈ w.faults.take 3, b = false) :
    (∀ cached, cacheMatch (w.caches.entries .CACHE_NAME) request.url = some cached →
        (fetchHandler origin network request w).1 = some (.ok cached)
          ∧ (fetchHandler origin network request w).2.caches = w.caches
          ∧ (fetchHandler origin network request w).2.log
            = w.log ++ [.cachesOpen .CACHE_NAME, .cacheMatch .CACHE_NAME request.url])
      ∧ (cacheMatch (w.caches.entries .CACHE_NAME) request.url = none →
          (∀ response, network request = .ok response →
            (fetchHandler origin network request w).1 = some (.ok response)
              ∧ (fetchHandler origin network request w).2.log
                = w.log ++ [.cachesOpen .CACHE_NAME, .cacheMatch .CACHE_NAME request.url,
                    .fetch request.url]
                  ++ (if response.ok then [.cachePut .CACHE_NAME request.url] else [])
              ∧ (response.ok = true → storable response = true →
                  (fetchHandler origin network request w).2.caches
                    = { w.caches with
                        content :=
                          some (cachePut (w.caches.entries .CACHE_NAME) request.url
                            response) })
              ∧ (response.ok = false ∨ storable response = false →
                  (fetchHandler origin network request w).2.caches
                    = w.caches.opened .CACHE_NAME))
          ∧ (∀ message, network request = .error message →
              (fetchHandler origin network request w).1
                  = some (.error (.networkError message))
                ∧ (fetchHandler origin network request w).2.log
                  = w.log ++ [.cachesOpen .CACHE_NAME, .cacheMatch .CACHE_NAME request.url,
                      .fetch request.url]
                ∧ (fetchHandler origin network request w).2.caches
                  = w.caches.opened .CACHE_NAME)) := by
  have hk := fetchKey_of_listed hkey
  have ht : truthy (getProperty RESOURCES (fetchKey origin request.url)) = true := by
    rw [hk]
    exact truthy_of_listed hkey
  have h2 : ∀ b ∈ w.faults.take 2, b = false :=
    fun b hb => hhost b (List.take_subset_take_left _ (by omega) hb)
  rw [fetchHandler_listed hget ht (by rw [hk]; exact hroot)]
  unfold respondWith
  constructor
  · intro cached hc
    rw [cacheFirst_hit hc h2]
    exact ⟨rfl, rfl, by simp⟩
  · intro hc
    constructor
    · intro response hn
      rw [cacheFirst_miss_online hc hn hhost]
      by_cases hok : response.ok = true
      · simp only [hok, if_true]
        refine ⟨trivial, by simp, ?_, ?_⟩
        · intro _ hs
          simp only [hs, if_true]
          exact update_opened_content _ _
        · intro hs
          rcases hs with hs | hs
          · cases hs
          · simp only [hs, Bool.false_eq_true, if_false]
      · have hok2 : response.ok = false := by simpa using hok
        simp only [hok2, Bool.false_eq_true, if_false]
        refine ⟨trivial, by simp, ?_, ?_⟩
        · intro h
          cases h
        · intro _
          trivial
    · intro message hn
      rw [cacheFirst_miss_offline hc hn h2]
      exact ⟨rfl, by simp, rfl⟩

/-- C7, at requests for `main.dart.js` (cached), for `flutter.js` with a version suffix (not
cached, fetched and stored), for the same request with a fragment once that response is
stored (served from the cache) and for a file the server lacks (fetched, returned with its
status 404 and not stored). -/
theorem listed_is_cache_first_witness :
    (fetchHandler sampleOrigin onlineNetwork
        { method := "GET", url := "https://marshes.example/main.dart.js" }
        servingWorld).1 = some (.ok staleResponse)
      ∧ (fetchHandler sampleOrigin onlineNetwork
          { method := "GET", url := "https://marshes.example/main.dart.js" }
          servingWorld).2.caches = servingCaches
      ∧ (fetchHandler sampleOrigin onlineNetwork
          { method := "GET", url := "https://marshes.example/flutter.js?v=2" }
          servingWorld).1 = some (.ok freshResponse)
      ∧ (fetchHandler sampleOrigin onlineNetwork
          { method := "GET", url := "https://marshes.example/flutter.js?v=2" }
          servingWorld).2.caches
        = { servingCaches with
            content := some
              [("https://marshes.example/", staleResponse),
               ("https://marshes.example/index.html", staleResponse),
               ("https://marshes.example/main.dart.js", staleResponse),
               ("https://marshes.example/flutter.js?v=2", freshResponse)] }
      ∧ (fetchHandler sampleOrigin offlineNetwork
          { method := "GET", url := "https://marshes.example/flutter.js?v=2#top" }
          versionedWorld).1 = some (.ok staleResponse)
      ∧ (fetchHandler sampleOrigin missingNetwork
          { method := "GET", url := "https://marshes.example/favicon.png" }
          servingWorld).2.caches = servingCaches :=
  ⟨((listed_is_cache_first sampleOrigin onlineNetwork
        { method := "GET", url := "https://marshes.example/main.dart.js" } servingWorld
        rfl (by decide!) (by decide!) (by decide!)).1 staleResponse (by decide!)).1,
    ((listed_is_cache_first sampleOrigin onlineNetwork
        { method := "GET", url := "https://marshes.example/main.dart.js" } servingWorld
        rfl (by decide!) (by decide!) (by decide!)).1 staleResponse (by decide!)).2.1,
    (((listed_is_cache_first sampleOrigin onlineNetwork
        { method := "GET", url := "https://marshes.example/flutter.js?v=2" } servingWorld
        rfl (by decide!) (by decide!) (by decide!)).2 (by decide!)).1 freshResponse rfl).1,
    (((listed_is_cache_first sampleOrigin onlineNetwork
        { method := "GET", url := "https://marshes.example/flutter.js?v=2" } servingWorld
        rfl (by decide!) (by decide!) (by decide!)).2 (by decide!)).1
          freshResponse rfl).2.2.1 (by decide!) (by decide!),
    ((listed_is_cache_first sampleOrigin offlineNetwork
        { method := "GET", url := "https://marshes.example/flutter.js?v=2#top" }
        versionedWorld rfl (by decide!) (by decide!) (by decide!)).1 staleResponse
          (by decide!)).1,
    (((listed_is_cache_first sampleOrigin missingNetwork
        { method := "GET", url := "https://marshes.example/favicon.png" } servingWorld
        rfl (by decide!) (by decide!) (by decide!)).2 (by decide!)).1
          missingResponse rfl).2.2.2 (Or.inl (by decide!))⟩

/-- C8 (the code at the failing input): the key of a GET request for `/constructor` is not a
key of `RESOURCES`, yet the handler responds to it, fetches it and stores the response in the
content cache, because `RESOURCES['constructor']` is the inherited function. -/
theorem fetch_answers_inherited_key :
    fetchKey sampleOrigin "https://marshes.example/constructor" = "constructor"
      ∧ "constructor" ∉ objectKeys RESOURCES
      ∧ fetchHandler sampleOrigin onlineNetwork
          { method := "GET", url := "https://marshes.example/constructor" } servingWorld
        = (some (.ok freshResponse),
            { caches :=
                { servingCaches with
                  content := some
                    [("https://marshes.example/", staleResponse),
                     ("https://marshes.example/index.html", staleResponse),
                     ("https://marshes.example/main.dart.js", staleResponse),
                     ("https://marshes.example/constructor", freshResponse)] }
              faults := []
              log := [.cachesOpen .CACHE_NAME,
                .cacheMatch .CACHE_NAME "https://marshes.example/constructor",
                .fetch "https://marshes.example/constructor",
                .cachePut .CACHE_NAME "https://marshes.example/constructor"] }) := by
  decide!

/-- C10 (the code at the failing input): for a GET request whose key is `index.html` and
whose response is cached, the handler serves the cached response without trying the network,
although the network is up; the same request for the root path is fetched first. -/
theorem index_html_is_cache_first :
    fetchKey sampleOrigin "https://marshes.example/index.html" = "index.html"
      ∧ fetchHandler sampleOrigin onlineNetwork
          { method := "GET", url := "https://marshes.example/index.html" } servingWorld
        = (some (.ok staleResponse),
            { caches := servingCaches
              faults := []
              log := [.cachesOpen .CACHE_NAME,
                .cacheMatch .CACHE_NAME "https://marshes.example/index.html"] })
      ∧ (fetchHandler sampleOrigin onlineNetwork
          { method := "GET", url := "https://marshes.example/" } servingWorld).2.log
        = [.fetch "https://marshes.example/", .cachesOpen .CACHE_NAME,
            .cachePut .CACHE_NAME "https://marshes.example/"]
      ∧ (fetchHandler sampleOrigin onlineNetwork
          { method := "GET", url := "https://marshes.example/" } servingWorld).1
        = some (.ok freshResponse) := by
  decide!

/-! ## Claims on `downloadOffline` -/

/-- C9 (counterexample): the content cache holds the root document under the URL
`https://marshes.example/#/home`, as `onlineFirst` stores it for a request of that URL, and
`main.dart.js`. The key of the first entry is `#/home`, so `downloadOffline` asks for `'/'`,
and when the download succeeds the host replaces the entry by the downloaded root document:
the entry that was present is gone, and its request now matches the fresh response. And on a
host that rejects `caches.open` nothing is requested, although 73 keys have no entry. -/
theorem download_replaces_fragment_entry :
    ("https://marshes.example/#/home", staleResponse)
        ∈ fragmentWorld.caches.entries .CACHE_NAME
      ∧ (downloadOffline sampleOrigin onlineNetwork fragmentWorld).1 = .ok ()
      ∧ ("https://marshes.example/#/home", staleResponse)
        ∉ (downloadOffline sampleOrigin onlineNetwork fragmentWorld).2.caches.entries
            .CACHE_NAME
      ∧ cacheMatch
          ((downloadOffline sampleOrigin onlineNetwork fragmentWorld).2.caches.entries
            .CACHE_NAME) "https://marshes.example/#/home" = some freshResponse
      ∧ (uncachedKeys sampleOrigin (refusingWorld.caches.entries .CACHE_NAME)).length = 73
      ∧ downloadOffline sampleOrigin onlineNetwork refusingWorld
        = (.error (.rejected (.cachesOpen .CACHE_NAME)),
            { caches := servingCaches, faults := [], log := [.cachesOpen .CACHE_NAME] }) := by
  decide!

/-- C9 (amended): on the message `'downloadOffline'` the worker runs `downloadOffline` without
awaiting it. When the host rejects none of its three calls, `downloadOffline` asks `addAll`
for exactly the keys of `RESOURCES` that are the key of no entry of the content cache, each
once and in the order of the table, hence for nothing when every key is cached. The download
succeeds when every requested file is fetched with an ok response that the host stores. When
it succeeds, the content cache holds its former entries except those that a downloaded
request matches once the fragment of their URL is set aside, followed by the downloaded
responses; every key of `RESOURCES` is then the key of an entry, and every former entry whose
key has no `#`, so every one whose key is a key of `RESOURCES`, is left as it was. -/
theorem download_fetches_missing (origin : String) (network : Network) (w : World)
    (horigin : '#' ∉ origin.data) (hhost : ∀ b ∈ w.faults.take 3, b = false) :
    messageHandler origin network "downloadOffline" w
        = (.ok (), (downloadOffline origin network w).2)
      ∧ (downloadOffline origin network w).2.log
        = w.log ++ [.cachesOpen .CACHE_NAME, .cacheKeys .CACHE_NAME,
            .cacheAddAll .CACHE_NAME (uncachedKeys origin (w.caches.entries .CACHE_NAME))]
      ∧ (uncachedKeys origin (w.caches.entries .CACHE_NAME)).Nodup
      ∧ ((∀ k ∈ objectKeys RESOURCES,
            k ∈ (cacheKeys (w.caches.entries .CACHE_NAME)).map (requestKey origin)) →
          uncachedKeys origin (w.caches.entries .CACHE_NAME) = [])
      ∧ ((∀ k ∈ uncachedKeys origin (w.caches.entries .CACHE_NAME),
            ∃ r, network { method := "GET", url := resolveUrl origin k } = .ok r
              ∧ r.ok = true ∧ storable r = true) →
          (downloadOffline origin network w).1 = .ok ())
      ∧ ((downloadOffline origin network w).1 = .ok () →
          ∃ added : List (String × Response),
            (downloadOffline origin network w).2.caches
                = { w.caches with
                    content := some
                      ((w.caches.entries .CACHE_NAME).filter
                          (fun e => (uncachedKeys origin (w.caches.entries .CACHE_NAME)).all
                            (fun k => !sameRequest e.1 (resolveUrl origin k)))
                        ++ added) }
              ∧ added.map (fun e => e.1)
                = (uncachedKeys origin (w.caches.entries .CACHE_NAME)).map (resolveUrl origin)
              ∧ (∀ a ∈ added, network { method := "GET", url := a.1 } = .ok a.2)
              ∧ (∀ k ∈ objectKeys RESOURCES,
                  k ∈ (cacheKeys
                      ((w.caches.entries .CACHE_NAME).filter
                          (fun e => (uncachedKeys origin (w.caches.entries .CACHE_NAME)).all
                            (fun k => !sameRequest e.1 (resolveUrl origin k)))
                        ++ added)).map (requestKey origin))
              ∧ (∀ e ∈ w.caches.entries .CACHE_NAME, '#' ∉ (requestKey origin e.1).data →
                  e ∈ (w.caches.entries .CACHE_NAME).filter
                    (fun e => (uncachedKeys origin (w.caches.entries .CACHE_NAME)).all
                      (fun k => !sameRequest e.1 (resolveUrl origin k))))) := by
  have hne : ∀ k ∈ objectKeys RESOURCES, k ≠ "" := by decide!
  have hnodup : (objectKeys RESOURCES).Nodup := by decide!
  have hsub : ∀ k ∈ uncachedKeys origin (w.caches.entries .CACHE_NAME),
      k ∈ objectKeys RESOURCES := fun k hk => (List.mem_filter.mp hk).1
  have hun : (uncachedKeys origin (w.caches.entries .CACHE_NAME)).Nodup := hnodup.filter _
  have hkept : ∀ e ∈ w.caches.entries .CACHE_NAME, '#' ∉ (requestKey origin e.1).data →
      e ∈ (w.caches.entries .CACHE_NAME).filter
        (fun e => (uncachedKeys origin (w.caches.entries .CACHE_NAME)).all
          (fun k => !sameRequest e.1 (resolveUrl origin k))) :=
    fun e he hkey => List.mem_filter.mpr ⟨he, kept_of_key_without_hash horigin he hkey⟩
  refine ⟨?_, downloadOffline_log hhost, hun, ?_, ?_, ?_⟩
  · unfold messageHandler
    rw [if_neg (by decide), if_pos rfl]
    rfl
  · intro hall
    unfold uncachedKeys
    rw [List.filter_eq_nil_iff]
    intro k hk
    simpa using hall k hk
  · intro hnet
    rcases @downloadOffline_run origin network w hhost with
      ⟨hr, _⟩ | ⟨_, hf, _⟩
    · rw [hr]
    · exfalso
      obtain ⟨entries, hes⟩ := fetchAll_total origin network _ hnet
      rcases hf with hf | ⟨entries2, hf, hd⟩
      · rw [show fetchAll origin network (uncachedKeys origin (w.caches.entries .CACHE_NAME))
            = none from hf] at hes
        cases hes
      · exact hd (resolved_nodup horigin hsub hun (fetchAll_some origin network _ _ hf).1)
  · intro hok
    rcases @downloadOffline_run origin network w hhost with
      ⟨_, entries, hf, hd, hc⟩ | ⟨⟨e, he⟩, _, _⟩
    · obtain ⟨hkeys, hnet⟩ := fetchAll_some origin network _ _ hf
      have hall : ∀ e : String × Response,
          entries.all (fun a => !sameRequest e.1 a.1)
            = (uncachedKeys origin (w.caches.entries .CACHE_NAME)).all
                (fun k => !sameRequest e.1 (resolveUrl origin k)) := by
        intro e
        rw [← all_map_eq entries (fun a => a.1) (fun u => !sameRequest e.1 u), hkeys,
          all_map_eq]
        rfl
      refine ⟨entries, ?_, hkeys, fun a ha => (hnet a ha).1, ?_, hkept⟩
      · rw [hc, putAll_distinct entries _ hd]
        simp only [hall]
      · intro k hk
        unfold cacheKeys
        rw [List.map_append, List.map_append, List.mem_append]
        by_cases hin : k ∈ (cacheKeys (w.caches.entries .CACHE_NAME)).map (requestKey origin)
        · left
          obtain ⟨u, hu, huk⟩ := List.mem_map.mp hin
          obtain ⟨e, he, heu⟩ := List.mem_map.mp hu
          have hkey : '#' ∉ (requestKey origin e.1).data := by
            rw [heu, huk]
            exact RESOURCES_no_hash k hk
          refine List.mem_map.mpr ⟨u, List.mem_map.mpr ⟨e, hkept e he hkey, heu⟩, huk⟩
        · right
          rw [hkeys]
          refine List.mem_map.mpr ⟨resolveUrl origin k, ?_,
            requestKey_resolveUrl origin (hne k hk)⟩
          exact List.mem_map.mpr ⟨k, List.mem_filter.mpr ⟨hk, by simpa using hin⟩, rfl⟩
    · rw [he] at hok
      cases hok

/-- C9, with the root document, `index.html` and `main.dart.js` cached, the network up and a
host that rejects nothing: the other 73 keys are requested, the download succeeds, the three
cached entries stay at the head of the content cache and every key of the table has an
entry. -/
theorem download_fetches_missing_witness :
    (downloadOffline sampleOrigin onlineNetwork servingWorld).1 = .ok ()
      ∧ (uncachedKeys sampleOrigin (servingWorld.caches.entries .CACHE_NAME)).length = 73
      ∧ ∃ added : List (String × Response),
          (downloadOffline sampleOrigin onlineNetwork servingWorld).2.caches
              = { servingCaches with
                  content := some
                    ((servingCaches.entries .CACHE_NAME).filter
                        (fun e =>
                          (uncachedKeys sampleOrigin (servingCaches.entries .CACHE_NAME)).all
                            (fun k => !sameRequest e.1 (resolveUrl sampleOrigin k)))
                      ++ added) }
            ∧ (∀ e ∈ servingCaches.entries .CACHE_NAME,
                e ∈ (servingCaches.entries .CACHE_NAME).filter
                  (fun e =>
                    (uncachedKeys sampleOrigin (servingCaches.entries .CACHE_NAME)).all
                      (fun k => !sameRequest e.1 (resolveUrl sampleOrigin k))))
            ∧ ∀ k ∈ objectKeys RESOURCES,
                k ∈ (cacheKeys
                    ((servingCaches.entries .CACHE_NAME).filter
                        (fun e =>
                          (uncachedKeys sampleOrigin (servingCaches.entries .CACHE_NAME)).all
                            (fun k => !sameRequest e.1 (resolveUrl sampleOrigin k)))
                      ++ added)).map (requestKey sampleOrigin) :=
  have h := download_fetches_missing sampleOrigin onlineNetwork servingWorld (by decide!)
    (by decide!)
  have hok := h.2.2.2.2.1 (fun _ _ => ⟨freshResponse, rfl, by decide!, by decide!⟩)
  ⟨hok, by decide!,
    (h.2.2.2.2.2 hok).elim fun added ha =>
      ⟨added, ha.1, fun e he => ha.2.2.2.2 e he (by revert e he; decide!), ha.2.2.2.1⟩⟩

end ServiceWorker
